import Mathlib

/-!
Shallow embedding of the fMBT remote-devices broker
(`python3-remotedevices/remotedevices_server.py`): the `Devices` registry,
its leasing protocol and reconciliation, and the `DeviceClass` plugin
contract.  Python dicts are modelled as association lists in insertion
order (setting an existing key keeps its position, a new key is appended,
`del` removes the entry), matching CPython dict semantics.  Regular
expression matching (`re.match`) is abstracted by a boolean parameter,
`time.time()` and `random.choice` by explicit parameters, and exceptions
by `Except String`.
-/

set_option autoImplicit false

namespace RemoteDevices

/-- Association-list lookup: first entry with the given key (dict access). -/
def alookup {κ α : Type} [DecidableEq κ] (k : κ) : List (κ × α) → Option α
  | [] => none
  | (k', v) :: t => if k' = k then some v else alookup k t

/-- Association-list update (dict assignment): replace the first entry with
the key in place, or append a new entry at the end. -/
def aset {κ α : Type} [DecidableEq κ] (k : κ) (v : α) : List (κ × α) → List (κ × α)
  | [] => [(k, v)]
  | (k', v') :: t => if k' = k then (k, v) :: t else (k', v') :: aset k v t

/-- Association-list deletion (dict `del`): drop entries with the key. -/
def aerase {κ α : Type} [DecidableEq κ] (k : κ) : List (κ × α) → List (κ × α)
  | [] => []
  | (k', v) :: t => if k' = k then aerase k t else (k', v) :: aerase k t

/-- `DeviceInfo` namedtuple (remotedevices_server.py line 30):
fields `id`, `type`, `sw`, `hw`, `display`. -/
structure DeviceInfo where
  id : String
  type : String
  sw : String
  hw : String
  display : String
deriving DecidableEq

/-- A dynamic Python value as stored in the first slot of a `_devinfo`
registry entry.  `adopt` returns an opaque device-access object (`obj`);
embedding `DeviceInfo` as a second constructor (`infoRec`) lets theorems
state whether a returned value is the access object or the metadata
record, as a Python caller could observe. -/
inductive DevObj where
  | obj : Nat → DevObj
  | infoRec : DeviceInfo → DevObj
deriving DecidableEq

/-- A discovery plugin (`DeviceClass`): its `maxRefCount` capacity
(`-1` = unlimited) and the behaviour of its three operations, each
modelled as the result the Python call would produce (`Except.error` for a
raised exception). -/
structure DeviceClass where
  maxRefCount : Int
  rescanResult : Except String (List String)
  adoptResult : String → Except String (DevObj × DeviceInfo)
  abandonResult : DeviceInfo → DevObj → Except String Unit

/-- The broker state: the four dictionaries reset by `Devices.reset`
(lines 121-125) together with the module-level globals the methods read
(`_g_device_classes`, `_g_device_id_class`, `whitelist`, `blacklist`). -/
structure State where
  /-- `self._devinfo` : serial -> (device, deviceInfo) -/
  devinfo : List (String × (DevObj × DeviceInfo))
  /-- `self._refcount` : serial -> int -/
  refcount : List (String × Nat)
  /-- `self._acquirer` : acquirer-id -> (serial -> list-of-timestamps) -/
  acquirer : List (String × List (String × List Nat))
  /-- `self._infos` : deviceInfo -> serial -/
  infos : List (DeviceInfo × String)
  /-- `_g_device_id_class` : device id -> device class -/
  deviceIdClass : List (String × DeviceClass)
  /-- `_g_device_classes` -/
  deviceClasses : List DeviceClass
  /-- `whitelist` -/
  whitelist : List String
  /-- `blacklist` -/
  blacklist : List String

namespace Devices

/-- `Devices._validate` (lines 258-260): unknown-device check against
`self._refcount`. -/
def validate (s : State) (key : String) : Except String Unit :=
  if (alookup key s.refcount).isSome then Except.ok ()
  else Except.error ("unknown device " ++ key)

/-- `Devices.available` (lines 195-201): validate, then compare the lease
count with the owning plugin's `maxRefCount` (`-1` = unlimited).  The
plugin lookup `_g_device_id_class[key]` raises `KeyError` when absent. -/
def available (s : State) (key : String) : Except String Bool :=
  match alookup key s.refcount with
  | none => Except.error ("unknown device " ++ key)
  | some n =>
    match alookup key s.deviceIdClass with
    | none => Except.error ("KeyError " ++ key)
    | some dc =>
      Except.ok (decide (dc.maxRefCount = -1) || decide ((n : Int) < dc.maxRefCount))

/-- `str(b).lower()` for a Python boolean. -/
def boolStr (b : Bool) : String := if b then "true" else "false"

/-- One regexp criterion of `_wolock_match`: a criteria key absent from
`matchArgs` imposes no constraint; a present one must `re.match` the
field.  `rmatch pat fld` abstracts `re.match(pat, fld)` being truthy. -/
def criterion (rmatch : String → String → Bool) (args : List (String × String))
    (k : String) (fld : String) : Bool :=
  match alookup k args with
  | none => true
  | some pat => rmatch pat fld

/-- The `busy` clause of `_wolock_match` (lines 188-192), evaluated after
the `free` clause; calls `self.available` on the reverse-indexed serial. -/
def busyClause (s : State) (args : List (String × String)) (sid : String) :
    Except String Bool :=
  match alookup "busy" args with
  | none => Except.ok true
  | some b =>
    match available s sid with
    | Except.error e => Except.error e
    | Except.ok av => Except.ok (b.toLower = boolStr (!av))

/-- The conjunction of all seven criteria of `_wolock_match`
(lines 171-193) for one info record `i` with reverse-indexed serial
`sid`, with Python `and` short-circuit order: the five regexp clauses,
then `free`, then `busy`. -/
def matchPred (rmatch : String → String → Bool) (s : State)
    (args : List (String × String)) (i : DeviceInfo) (sid : String) :
    Except String Bool :=
  if criterion rmatch args "id" i.id
      && criterion rmatch args "type" i.type
      && criterion rmatch args "sw" i.sw
      && criterion rmatch args "hw" i.hw
      && criterion rmatch args "display" i.display then
    match alookup "free" args with
    | none => busyClause s args sid
    | some f =>
      match available s sid with
      | Except.error e => Except.error e
      | Except.ok av =>
        if f.toLower = boolStr av then busyClause s args sid
        else Except.ok false
  else Except.ok false

/-- The comprehension of `_wolock_match`: keep the serials of the info
records satisfying `matchPred`, in `self._infos` insertion order. -/
def matchFilter (rmatch : String → String → Bool) (s : State)
    (args : List (String × String)) :
    List (DeviceInfo × String) → Except String (List String)
  | [] => Except.ok []
  | (i, sid) :: t =>
    match matchPred rmatch s args i sid with
    | Except.error e => Except.error e
    | Except.ok b =>
      match matchFilter rmatch s args t with
      | Except.error e => Except.error e
      | Except.ok r => Except.ok (if b then sid :: r else r)

/-- `Devices._wolock_match` (lines 171-193). -/
def wolock_match (rmatch : String → String → Bool) (s : State)
    (args : List (String × String)) : Except String (List String) :=
  matchFilter rmatch s args s.infos

/-- `Devices._wolock_acquire` (lines 262-271): bump the lease count and
append the timestamp `ts` (for `time.time()`) to
`self._acquirer[acquirer][key]`, creating dict levels as needed.
`self._refcount[key] += 1` raises `KeyError` on an unregistered key. -/
def wolock_acquire (s : State) (key : String) (acq : String) (ts : Nat) :
    Except String State :=
  match alookup key s.refcount with
  | none => Except.error ("KeyError " ++ key)
  | some n =>
    let led :=
      match alookup acq s.acquirer with
      | some m =>
        match alookup key m with
        | some l => aset acq (aset key (l ++ [ts]) m) s.acquirer
        | none => aset acq (aset key [ts] m) s.acquirer
      | none => s.acquirer ++ [(acq, [(key, [ts])])]
    Except.ok { s with refcount := aset key (n + 1) s.refcount, acquirer := led }

/-- The automatic-acquirer search of `_wolock_release` (lines 277-282):
the first acquirer, in dict order, with a lease on `key`. -/
def autoFind (key : String) : List (String × List (String × List Nat)) → Option String
  | [] => none
  | (a, m) :: t =>
    if 0 < ((alookup key m).getD []).length then some a else autoFind key t

/-- The `if acquirer is None` resolution step of `_wolock_release`
(lines 277-282): an explicit acquirer is kept; `None` resolves to the
first acquirer holding a lease on the device, or stays `None`. -/
def resolveAcquirer (key : String) (led : List (String × List (String × List Nat))) :
    Option String → Option String
  | some a => some a
  | none => autoFind key led

/-- `Devices._wolock_release` (lines 273-294): refuse if the lease count
is zero; resolve a `None` acquirer to the first one holding the device
(remaining unresolved means the final membership test fails); refuse if
the resolved acquirer holds no lease on the device; otherwise decrement
the count, pop the most recent timestamp, and delete emptied dict
entries. -/
def wolock_release (s : State) (key : String) (acquirer : Option String) :
    Except String State :=
  match alookup key s.refcount with
  | none => Except.error ("KeyError " ++ key)
  | some n =>
    if n = 0 then Except.error ("device " ++ key ++ " not acquired")
    else
      match resolveAcquirer key s.acquirer acquirer with
      | none => Except.error ("None has not acquired " ++ key)
      | some a =>
        match alookup a s.acquirer with
        | none => Except.error (a ++ " has not acquired " ++ key)
        | some m =>
          match alookup key m with
          | none => Except.error (a ++ " has not acquired " ++ key)
          | some l =>
            if l.length = 0 then Except.error (a ++ " has not acquired " ++ key)
            else
              let l' := l.dropLast
              let led :=
                if l' = [] then
                  let m' := aerase key m
                  if m' = [] then aerase a s.acquirer
                  else aset a m' s.acquirer
                else aset a (aset key l' m) s.acquirer
              Except.ok { s with refcount := aset key (n - 1) s.refcount,
                                 acquirer := led }

/-- `Devices.release` (lines 296-299). -/
def release (s : State) (key : String) (acquirer : Option String) :
    Except String State :=
  match validate s key with
  | Except.error e => Except.error e
  | Except.ok _ => wolock_release s key acquirer

/-- The loop body of `Devices.release_all` (lines 305-307): release each
key of the snapshot in turn, propagating any exception. -/
def releaseLoop (acq : String) : List String → State → Except String State
  | [], s => Except.ok s
  | k :: t, s =>
    match wolock_release s k (some acq) with
    | Except.error e => Except.error e
    | Except.ok s' => releaseLoop acq t s'

/-- `Devices.release_all` (lines 301-307): unknown-acquirer check, then
one `_wolock_release` per key the acquirer currently holds. -/
def release_all (s : State) (acq : String) : Except String State :=
  match alookup acq s.acquirer with
  | none => Except.error ("unknown acquirer " ++ acq)
  | some m => releaseLoop acq (m.map Prod.fst) s

/-- `Devices.acquired` (lines 309-313): with a positive lease count,
return `self._devinfo[key][0]` — the first slot of the registry entry;
otherwise raise "not acquired".  Dict accesses on an unregistered key
raise `KeyError`. -/
def acquired (s : State) (key : String) : Except String DevObj :=
  match alookup key s.refcount with
  | none => Except.error ("KeyError " ++ key)
  | some n =>
    if 0 < n then
      match alookup key s.devinfo with
      | none => Except.error ("KeyError " ++ key)
      | some di => Except.ok di.1
    else Except.error ("device " ++ key ++ " not acquired")

/-- `Devices.info` (lines 253-256): validate, then return (a copy of) the
`DeviceInfo` in the second slot of the registry entry. -/
def info (s : State) (key : String) : Except String DeviceInfo :=
  match validate s key with
  | Except.error e => Except.error e
  | Except.ok _ =>
    match alookup key s.devinfo with
    | none => Except.error ("KeyError " ++ key)
    | some di => Except.ok di.2

/-- The availability comprehension inside `acquire` (lines 239-241):
`[s for s in matchingSerials if self.available(s)]`, with exceptions
propagating. -/
def availFilter (s : State) : List String → Except String (List String)
  | [] => Except.ok []
  | k :: t =>
    match available s k with
    | Except.error e => Except.error e
    | Except.ok b =>
      match availFilter s t with
      | Except.error e => Except.error e
      | Except.ok r => Except.ok (if b then k :: r else r)

/-- `Devices.acquire` with `block=False` (lines 206-251): one pass of the
loop.  A `None` acquirer is normalized to `""` (lines 232-233); if no
serial matches, return `None`; if none of the matches is available,
return `None` as well (the `if not block` exit); otherwise pick one of
the available matches (`random.choice` abstracted by the index function
`pick`, reduced modulo the candidate count) and record the lease.  The
blocking variant only repeats this pass after a sleep and is not
modelled. -/
def acquire_nonblock (rmatch : String → String → Bool) (pick : List String → Nat)
    (ts : Nat) (s : State) (acquirer : Option String)
    (args : List (String × String)) : Except String (Option String × State) :=
  let acq := match acquirer with | none => "" | some a => a
  match wolock_match rmatch s args with
  | Except.error e => Except.error e
  | Except.ok matching =>
    if matching = [] then Except.ok (none, s)
    else
      match availFilter s matching with
      | Except.error e => Except.error e
      | Except.ok avail =>
        if avail = [] then Except.ok (none, s)
        else
          let key := avail.getD (pick avail % avail.length) ""
          match wolock_acquire s key acq ts with
          | Except.error e => Except.error e
          | Except.ok s' => Except.ok (some key, s')

/-- Ascending insertion for `sorted(...)`. -/
def sortInsert (x : String) : List String → List String
  | [] => [x]
  | y :: t => if y < x then y :: sortInsert x t else x :: y :: t

/-- Python `sorted` on a list of strings. -/
def ssort (l : List String) : List String := l.foldr sortInsert []

/-- `Devices.acquirers` (lines 315-316): `sorted(self._acquirer.keys())`. -/
def acquirers (s : State) : List String := ssort (s.acquirer.map Prod.fst)

/-- `Devices._wolock_add` (lines 328-333): `adopt` through the owning
plugin, then create the registry entry with lease count 0 and the
reverse-index entry.  The `_g_device_id_class[serialNumber]` access
raises `KeyError` when the id has no owning plugin. -/
def wolock_add (s : State) (key : String) : Except String State :=
  match alookup key s.deviceIdClass with
  | none => Except.error ("KeyError " ++ key)
  | some dc =>
    match dc.adoptResult key with
    | Except.error e => Except.error e
    | Except.ok di =>
      Except.ok { s with devinfo := aset key di s.devinfo,
                         refcount := aset key 0 s.refcount,
                         infos := aset di.2 key s.infos }

/-- `Devices.add` (lines 335-347): fail when the id has no owning plugin,
is blacklisted, or is already registered; otherwise `_wolock_add`, with
an adoption failure wrapped as an "error accessing" failure.  The
whitelist is not consulted. -/
def add (s : State) (key : String) : Except String State :=
  if (alookup key s.deviceIdClass).isNone then
    Except.error ("device " ++ key ++ " not found")
  else if key ∈ s.blacklist then
    Except.error ("device " ++ key ++ " blacklisted")
  else if (alookup key s.refcount).isSome then
    Except.error ("device " ++ key ++ " already added")
  else
    match wolock_add s key with
    | Except.error e => Except.error ("error accessing " ++ key ++ ": " ++ e)
    | Except.ok s' => Except.ok s'

/-- `Devices._wolock_remove` (lines 363-373): validate; while the lease
count is positive force-release one lease through the automatic-acquirer
path; `abandon` through the owning plugin (any exception propagates —
there is no try/except here); then delete the registry, refcount and
reverse-index entries. -/
def wolock_remove (s : State) (key : String) : Except String State :=
  match validate s key with
  | Except.error e => Except.error e
  | Except.ok _ =>
    match (if 0 < ((alookup key s.refcount).getD 0)
           then wolock_release s key none else Except.ok s) with
    | Except.error e => Except.error e
    | Except.ok s1 =>
      match alookup key s1.devinfo with
      | none => Except.error ("KeyError " ++ key)
      | some di =>
        match alookup key s1.deviceIdClass with
        | none => Except.error ("KeyError " ++ key)
        | some dc =>
          match dc.abandonResult di.2 di.1 with
          | Except.error e => Except.error e
          | Except.ok _ =>
            Except.ok { s1 with devinfo := aerase key s1.devinfo,
                                refcount := aerase key s1.refcount,
                                infos := aerase di.2 s1.infos }

/-- `Devices.remove` (lines 375-380): validate, refuse with "busy" when
leased and `force` is not set, else `_wolock_remove`. -/
def remove (s : State) (key : String) (force : Bool) : Except String State :=
  match validate s key with
  | Except.error e => Except.error e
  | Except.ok _ =>
    if 0 < ((alookup key s.refcount).getD 0) && !force then
      Except.error ("device " ++ key ++ " is busy")
    else wolock_remove s key

/-- De-duplicating insertion for building the `serialNumbers` set of
`rescan` (line 129/143) in discovery order. -/
def sinsert (x : String) (l : List String) : List String :=
  if x ∈ l then l else l ++ [x]

/-- The plugin-enumeration phase of `rescan` (lines 130-144): for each
device class, a failing `dc.rescan()` degrades to an empty enumeration;
each enumerated id is added to the set and mapped to the class in
`_g_device_id_class` (last plugin wins on collision). -/
def scanClasses :
    List DeviceClass → List String × List (String × DeviceClass) →
      List String × List (String × DeviceClass)
  | [], acc => acc
  | dc :: rest, acc =>
    let ids := match dc.rescanResult with
      | Except.ok l => l
      | Except.error _ => []
    scanClasses rest
      (ids.foldl (fun a did => (sinsert did a.1, aset did dc a.2)) acc)

/-- The new-device phase of `rescan` (lines 150-159): adopt each sorted
serial not yet registered; an adoption failure is logged and skipped. -/
def addLoop : List String → State → State
  | [], s => s
  | k :: t, s =>
    if (alookup k s.devinfo).isSome then addLoop t s
    else
      match wolock_add s k with
      | Except.ok s' => addLoop t s'
      | Except.error _ => addLoop t s

/-- The detached-device phase of `rescan` (lines 161-165): remove every
registered serial no longer enumerated; a `_wolock_remove` exception
propagates and aborts the pass. -/
def removeLoop (sns : List String) : List String → State → Except String State
  | [], s => Except.ok s
  | k :: t, s =>
    if k ∈ sns then removeLoop sns t s
    else
      match wolock_remove s k with
      | Except.error e => Except.error e
      | Except.ok s' => removeLoop sns t s'

/-- `Devices.rescan` (lines 127-165): enumerate through every plugin,
apply the whitelist (when non-empty) and the blacklist, adopt new
devices in sorted order, then forget the detached ones. -/
def rescan (s : State) : Except String State :=
  let scanned := scanClasses s.deviceClasses ([], s.deviceIdClass)
  let sns0 := scanned.1
  let sns1 := if s.whitelist ≠ [] then sns0.filter (fun x => decide (x ∈ s.whitelist))
              else sns0
  let sns := if s.blacklist ≠ [] then sns1.filter (fun x => decide (x ∉ s.blacklist))
             else sns1
  let s1 : State := { s with deviceIdClass := scanned.2 }
  let s2 := addLoop (ssort sns) s1
  removeLoop sns (s2.devinfo.map Prod.fst) s2

/-- `len(ledgerMap.get(key, []))`: how many leases one acquirer's map
records on device `key`. -/
def entryLen (key : String) (m : List (String × List Nat)) : Nat :=
  ((alookup key m).getD []).length

/-- Total number of leases recorded in the Lease Ledger on device `key`:
the sum over all acquirer entries of their timestamp-list lengths. -/
def ledgerCount (led : List (String × List (String × List Nat))) (key : String) : Nat :=
  (led.map (fun p => entryLen key p.2)).sum

/-- The well-formedness the broker maintains outside of the dangling
entries left by forced removal: dict keysets are duplicate-free, ledger
lists and maps are non-empty, the forward/refcount indices agree, every
registered device has an owning plugin, and the lease count of every
registered device equals its ledger total. -/
structure RInv (s : State) : Prop where
  acqNodup : (s.acquirer.map Prod.fst).Nodup
  innerNodup : ∀ p ∈ s.acquirer, (p.2.map Prod.fst).Nodup
  listsNonempty : ∀ p ∈ s.acquirer, ∀ q ∈ p.2, q.2 ≠ []
  mapsNonempty : ∀ p ∈ s.acquirer, p.2 ≠ []
  count : ∀ d n, alookup d s.refcount = some n → n = ledgerCount s.acquirer d
  devNodup : (s.devinfo.map Prod.fst).Nodup
  devRc : ∀ p ∈ s.devinfo, (alookup p.1 s.refcount).isSome = true
  rcDev : ∀ p ∈ s.refcount, (alookup p.1 s.devinfo).isSome = true
  devClass : ∀ p ∈ s.devinfo, (alookup p.1 s.deviceIdClass).isSome = true

/-- Full well-formedness: additionally, every device the ledger mentions
is registered (forced removal of a multiply-leased device breaks exactly
this field). -/
structure WF (s : State) extends RInv s : Prop where
  ledgerReg : ∀ p ∈ s.acquirer, ∀ q ∈ p.2, (alookup q.1 s.refcount).isSome = true

/-- The updated Lease Ledger produced by `_wolock_acquire`. -/
def acquireLedger (acq key : String) (ts : Nat)
    (led : List (String × List (String × List Nat))) :
    List (String × List (String × List Nat)) :=
  match alookup acq led with
  | some m =>
    match alookup key m with
    | some l => aset acq (aset key (l ++ [ts]) m) led
    | none => aset acq (aset key [ts] m) led
  | none => led ++ [(acq, [(key, [ts])])]

/-- The updated Lease Ledger produced by a successful `_wolock_release`
that found map `m` and timestamp list `l` for the resolved acquirer. -/
def releaseLedger (a key : String) (m : List (String × List Nat)) (l : List Nat)
    (led : List (String × List (String × List Nat))) :
    List (String × List (String × List Nat)) :=
  if l.dropLast = [] then
    if aerase key m = [] then aerase a led
    else aset a (aerase key m) led
  else aset a (aset key l.dropLast m) led

end Devices

/-! Concrete registry fixtures used to evaluate the model. -/
/-- Metadata of a device with serial "X". -/
def infoX : DeviceInfo :=
  { id := "X", type := "phone", sw := "1.0", hw := "A", display := "480x800" }

/-- Metadata of a device with serial "A". -/
def infoA : DeviceInfo :=
  { id := "A", type := "phone", sw := "1.0", hw := "A", display := "480x800" }

/-- Metadata of a device with serial "B". -/
def infoB : DeviceInfo :=
  { id := "B", type := "tablet", sw := "2.0", hw := "B", display := "720x1280" }

/-- A plugin with capacity 1 owning "X". -/
def dcCap1 : DeviceClass :=
  { maxRefCount := 1, rescanResult := Except.ok ["X"],
    adoptResult := fun _ => Except.ok (DevObj.obj 7, infoX),
    abandonResult := fun _ _ => Except.ok () }

/-- A plugin with unlimited capacity owning "X". -/
def dcUnl : DeviceClass :=
  { maxRefCount := -1, rescanResult := Except.ok ["X"],
    adoptResult := fun _ => Except.ok (DevObj.obj 7, infoX),
    abandonResult := fun _ _ => Except.ok () }

/-- A plugin owning "B". -/
def dcB : DeviceClass :=
  { maxRefCount := 1, rescanResult := Except.ok ["B"],
    adoptResult := fun _ => Except.ok (DevObj.obj 2, infoB),
    abandonResult := fun _ _ => Except.ok () }

/-- A plugin that no longer enumerates anything and whose `abandon`
raises. -/
def dcAbandonFail : DeviceClass :=
  { maxRefCount := 1, rescanResult := Except.ok [],
    adoptResult := fun _ => Except.ok (DevObj.obj 1, infoA),
    abandonResult := fun _ _ => Except.error "abandon failed" }

/-- An empty registry with no plugins. -/
def sEmpty : State :=
  { devinfo := [], refcount := [], acquirer := [], infos := [],
    deviceIdClass := [], deviceClasses := [], whitelist := [], blacklist := [] }

/-- One device "X" of capacity 1, currently leased once by "a". -/
def sFull : State :=
  { devinfo := [("X", (DevObj.obj 7, infoX))], refcount := [("X", 1)],
    acquirer := [("a", [("X", [3])])], infos := [(infoX, "X")],
    deviceIdClass := [("X", dcCap1)], deviceClasses := [dcCap1],
    whitelist := [], blacklist := [] }

/-- One device "X" of capacity 1, currently unleased. -/
def sIdle : State :=
  { devinfo := [("X", (DevObj.obj 7, infoX))], refcount := [("X", 0)],
    acquirer := [], infos := [(infoX, "X")],
    deviceIdClass := [("X", dcCap1)], deviceClasses := [dcCap1],
    whitelist := [], blacklist := [] }

/-- One device "X" (unlimited capacity) leased twice by the same
acquirer "a". -/
def sTwice : State :=
  { devinfo := [("X", (DevObj.obj 7, infoX))], refcount := [("X", 2)],
    acquirer := [("a", [("X", [1, 2])])], infos := [(infoX, "X")],
    deviceIdClass := [("X", dcUnl)], deviceClasses := [dcUnl],
    whitelist := [], blacklist := [] }

/-- One device "X" (unlimited capacity) leased once by "b" and once by
the anonymous acquirer `""`, with "b" first in ledger order. -/
def sTwoHolders : State :=
  { devinfo := [("X", (DevObj.obj 7, infoX))], refcount := [("X", 2)],
    acquirer := [("b", [("X", [5])]), ("", [("X", [6])])],
    infos := [(infoX, "X")],
    deviceIdClass := [("X", dcUnl)], deviceClasses := [dcUnl],
    whitelist := [], blacklist := [] }

/-- A registered, unleased device "A" whose owning plugin fails
`abandon` and no longer enumerates "A". -/
def sAbandonFail : State :=
  { devinfo := [("A", (DevObj.obj 1, infoA))], refcount := [("A", 0)],
    acquirer := [], infos := [(infoA, "A")],
    deviceIdClass := [("A", dcAbandonFail)], deviceClasses := [dcAbandonFail],
    whitelist := [], blacklist := [] }

/-- A non-empty Allow List (`whitelist = ["A"]`) and an adoptable,
non-denied, unregistered device "B" not on it. -/
def sAllowList : State :=
  { devinfo := [], refcount := [], acquirer := [], infos := [],
    deviceIdClass := [("B", dcB)], deviceClasses := [dcB],
    whitelist := ["A"], blacklist := [] }

/-- Trivial stand-in for `re.match` that accepts everything. -/
def rmTrue : String → String → Bool := fun _ _ => true

/-- Deterministic stand-in for `random.choice`: always index 0. -/
def pick0 : List String → Nat := fun _ => 0

@[simp] theorem alookup_nil {κ α : Type} [DecidableEq κ] (k : κ) :
    alookup (α := α) k [] = none := rfl

@[simp] theorem alookup_cons {κ α : Type} [DecidableEq κ] (k k' : κ) (v : α)
    (t : List (κ × α)) :
    alookup k ((k', v) :: t) = if k' = k then some v else alookup k t := rfl

@[simp] theorem alookup_aset_self {κ α : Type} [DecidableEq κ] (k : κ) (v : α)
    (l : List (κ × α)) : alookup k (aset k v l) = some v := by
  induction l with
  | nil => simp [aset]
  | cons p t ih =>
    obtain ⟨k', v'⟩ := p
    by_cases h : k' = k <;> simp [aset, h, ih]

theorem alookup_aset_ne {κ α : Type} [DecidableEq κ] {k k' : κ} (v : α)
    (l : List (κ × α)) (h : k' ≠ k) : alookup k (aset k' v l) = alookup k l := by
  induction l with
  | nil => simp [aset, alookup, h]
  | cons p t ih =>
    obtain ⟨k₀, v₀⟩ := p
    by_cases h0 : k₀ = k'
    · subst h0
      simp only [aset, if_pos rfl, alookup, if_neg h]
    · simp only [aset, if_neg h0, alookup]
      by_cases h1 : k₀ = k
      · simp [h1]
      · simp [h1, ih]

@[simp] theorem alookup_aerase_self {κ α : Type} [DecidableEq κ] (k : κ)
    (l : List (κ × α)) : alookup k (aerase k l) = none := by
  induction l with
  | nil => simp [aerase]
  | cons p t ih =>
    obtain ⟨k', v⟩ := p
    by_cases h : k' = k <;> simp [aerase, h, ih]

theorem alookup_aerase_ne {κ α : Type} [DecidableEq κ] {k k' : κ}
    (l : List (κ × α)) (h : k' ≠ k) : alookup k (aerase k' l) = alookup k l := by
  induction l with
  | nil => simp [aerase]
  | cons p t ih =>
    obtain ⟨k₀, v⟩ := p
    by_cases h0 : k₀ = k'
    · subst h0
      simp [aerase, ih, h]
    · simp only [aerase, if_neg h0, alookup]
      by_cases h1 : k₀ = k
      · simp [h1]
      · simp [h1, ih]

theorem alookup_mem {κ α : Type} [DecidableEq κ] {k : κ} {v : α}
    {l : List (κ × α)} (h : alookup k l = some v) : (k, v) ∈ l := by
  induction l with
  | nil => simp [alookup] at h
  | cons p t ih =>
    obtain ⟨k', v'⟩ := p
    by_cases hk : k' = k
    · subst hk
      simp [alookup] at h
      simp [h]
    · simp [alookup, hk] at h
      exact List.mem_cons_of_mem _ (ih h)

theorem alookup_isSome_of_mem_fst {κ α : Type} [DecidableEq κ] {k : κ}
    {l : List (κ × α)} (h : k ∈ l.map Prod.fst) : (alookup k l).isSome = true := by
  induction l with
  | nil => simp at h
  | cons p t ih =>
    obtain ⟨k', v'⟩ := p
    by_cases hk : k' = k
    · simp [alookup, hk]
    · simp only [List.map_cons, List.mem_cons] at h
      rcases h with h | h
      · exact absurd h.symm hk
      · simp [alookup, hk, ih h]

theorem mem_aset {κ α : Type} [DecidableEq κ] {k : κ} {v : α} {p : κ × α}
    {l : List (κ × α)} (h : p ∈ aset k v l) : p = (k, v) ∨ p ∈ l := by
  induction l with
  | nil => simp [aset] at h; simp [h]
  | cons q t ih =>
    obtain ⟨k', v'⟩ := q
    by_cases hk : k' = k
    · simp [aset, hk] at h
      rcases h with h | h
      · exact Or.inl h
      · exact Or.inr (List.mem_cons_of_mem _ h)
    · simp [aset, hk] at h
      rcases h with h | h
      · exact Or.inr (by simp [h])
      · rcases ih h with h' | h'
        · exact Or.inl h'
        · exact Or.inr (List.mem_cons_of_mem _ h')

theorem mem_aerase {κ α : Type} [DecidableEq κ] {k : κ} {p : κ × α}
    {l : List (κ × α)} (h : p ∈ aerase k l) : p ∈ l ∧ p.1 ≠ k := by
  induction l with
  | nil => simp [aerase] at h
  | cons q t ih =>
    obtain ⟨k', v'⟩ := q
    by_cases hk : k' = k
    · simp [aerase, hk] at h
      obtain ⟨h1, h2⟩ := ih h
      exact ⟨List.mem_cons_of_mem _ h1, h2⟩
    · simp [aerase, hk] at h
      rcases h with h | h
      · refine ⟨by simp [h], ?_⟩
        rw [h]
        exact hk
      · obtain ⟨h1, h2⟩ := ih h
        exact ⟨List.mem_cons_of_mem _ h1, h2⟩

theorem aset_map_fst_of_lookup_some {κ α : Type} [DecidableEq κ] {k : κ} (v : α)
    {l : List (κ × α)} (h : (alookup k l).isSome = true) :
    (aset k v l).map Prod.fst = l.map Prod.fst := by
  induction l with
  | nil => simp [alookup] at h
  | cons p t ih =>
    obtain ⟨k', v'⟩ := p
    by_cases hk : k' = k
    · simp [aset, hk]
    · simp [alookup, hk] at h
      simp [aset, hk, ih h]

theorem aset_map_fst_of_lookup_none {κ α : Type} [DecidableEq κ] {k : κ} (v : α)
    {l : List (κ × α)} (h : alookup k l = none) :
    (aset k v l).map Prod.fst = l.map Prod.fst ++ [k] := by
  induction l with
  | nil => simp [aset]
  | cons p t ih =>
    obtain ⟨k', v'⟩ := p
    by_cases hk : k' = k
    · simp [alookup, hk] at h
    · simp [alookup, hk] at h
      simp [aset, hk, ih h]

theorem aerase_map_fst {κ α : Type} [DecidableEq κ] (k : κ) (l : List (κ × α)) :
    (aerase k l).map Prod.fst = (l.map Prod.fst).filter (fun x => decide (x ≠ k)) := by
  induction l with
  | nil => simp [aerase]
  | cons p t ih =>
    obtain ⟨k', v'⟩ := p
    by_cases hk : k' = k <;> simp [aerase, hk, ih, List.filter]

theorem aerase_eq_self_of_not_mem {κ α : Type} [DecidableEq κ] {k : κ}
    {l : List (κ × α)} (h : k ∉ l.map Prod.fst) : aerase k l = l := by
  induction l with
  | nil => simp [aerase]
  | cons p t ih =>
    obtain ⟨k', v'⟩ := p
    simp only [List.map_cons, List.mem_cons, not_or] at h
    obtain ⟨h1, h2⟩ := h
    have h3 : ¬ k' = k := fun hh => h1 hh.symm
    simp [aerase, h3, ih h2]

theorem alookup_eq_none_iff {κ α : Type} [DecidableEq κ] (k : κ)
    (l : List (κ × α)) : alookup k l = none ↔ k ∉ l.map Prod.fst := by
  induction l with
  | nil => simp [alookup]
  | cons p t ih =>
    obtain ⟨k', v'⟩ := p
    by_cases hk : k' = k
    · subst hk
      simp [alookup]
    · simp only [alookup, if_neg hk, List.map_cons, List.mem_cons, not_or, ih]
      constructor
      · intro h
        exact ⟨fun hh => hk hh.symm, h⟩
      · intro h
        exact h.2

namespace Devices

theorem ledgerCount_nil (key : String) : ledgerCount [] key = 0 := rfl

theorem ledgerCount_cons (p : String × List (String × List Nat))
    (t : List (String × List (String × List Nat))) (key : String) :
    ledgerCount (p :: t) key = entryLen key p.2 + ledgerCount t key := by
  simp [ledgerCount]

theorem ledgerCount_append (l₁ l₂ : List (String × List (String × List Nat)))
    (key : String) :
    ledgerCount (l₁ ++ l₂) key = ledgerCount l₁ key + ledgerCount l₂ key := by
  simp [ledgerCount]

/-- Replacing the first entry of acquirer `a` (present with map `m`) by
map `m'` shifts the device-`d` ledger total by the entry's own shift. -/
theorem ledgerCount_aset (a : String) (m m' : List (String × List Nat))
    (led : List (String × List (String × List Nat))) (d : String)
    (hm : alookup a led = some m) :
    ledgerCount (aset a m' led) d + entryLen d m
      = ledgerCount led d + entryLen d m' := by
  induction led with
  | nil => simp [alookup] at hm
  | cons p t ih =>
    obtain ⟨a₀, m₀⟩ := p
    by_cases h0 : a₀ = a
    · subst h0
      have hm' : m₀ = m := by simpa [alookup] using hm
      subst hm'
      have ha : aset a₀ m' ((a₀, m₀) :: t) = (a₀, m') :: t := by simp [aset]
      rw [ha, ledgerCount_cons, ledgerCount_cons]
      ring
    · simp only [alookup, if_neg h0] at hm
      simp only [aset, if_neg h0, ledgerCount_cons]
      have := ih hm
      omega

/-- Deleting acquirer `a` (present with map `m`, keys duplicate-free)
removes exactly that entry's contribution from the device-`d` total. -/
theorem ledgerCount_aerase (a : String) (m : List (String × List Nat))
    (led : List (String × List (String × List Nat))) (d : String)
    (hm : alookup a led = some m) (hnd : (led.map Prod.fst).Nodup) :
    ledgerCount (aerase a led) d + entryLen d m = ledgerCount led d := by
  induction led with
  | nil => simp [alookup] at hm
  | cons p t ih =>
    obtain ⟨a₀, m₀⟩ := p
    simp only [List.map_cons, List.nodup_cons] at hnd
    obtain ⟨hna, hnt⟩ := hnd
    by_cases h0 : a₀ = a
    · subst h0
      have hm' : m₀ = m := by simpa [alookup] using hm
      subst hm'
      have herase : aerase a₀ ((a₀, m₀) :: t) = t := by
        simp [aerase, aerase_eq_self_of_not_mem hna]
      rw [herase, ledgerCount_cons]
      ring
    · simp only [alookup, if_neg h0] at hm
      simp only [aerase, if_neg h0, ledgerCount_cons]
      have := ih hm hnt
      omega

theorem entryLen_aset_self (key : String) (l : List Nat)
    (m : List (String × List Nat)) : entryLen key (aset key l m) = l.length := by
  simp [entryLen]

theorem entryLen_aset_ne {key k : String} (l : List Nat)
    (m : List (String × List Nat)) (h : k ≠ key) :
    entryLen key (aset k l m) = entryLen key m := by
  simp [entryLen, alookup_aset_ne _ _ h]

theorem entryLen_aerase_self (key : String) (m : List (String × List Nat)) :
    entryLen key (aerase key m) = 0 := by
  simp [entryLen]

theorem entryLen_aerase_ne {key k : String} (m : List (String × List Nat))
    (h : k ≠ key) : entryLen key (aerase k m) = entryLen key m := by
  simp [entryLen, alookup_aerase_ne _ h]

/-- A present acquirer entry bounds the ledger total from below. -/
theorem entryLen_le_ledgerCount (a : String) (m : List (String × List Nat))
    (led : List (String × List (String × List Nat))) (d : String)
    (hm : alookup a led = some m) :
    entryLen d m ≤ ledgerCount led d := by
  induction led with
  | nil => simp [alookup] at hm
  | cons p t ih =>
    obtain ⟨a₀, m₀⟩ := p
    by_cases h0 : a₀ = a
    · subst h0
      have hm' : m₀ = m := by simpa [alookup] using hm
      subst hm'
      simp [ledgerCount_cons]
    · simp only [alookup, if_neg h0] at hm
      simp only [ledgerCount_cons]
      exact le_add_of_nonneg_of_le (Nat.zero_le _) (ih hm)

/-- A positive device total means the automatic-acquirer search finds an
acquirer, and (given duplicate-free keys) its map holds a lease on the
device. -/
theorem autoFind_of_ledgerCount_pos (key : String)
    (led : List (String × List (String × List Nat)))
    (hpos : 0 < ledgerCount led key) (hnd : (led.map Prod.fst).Nodup) :
    ∃ a m, Devices.autoFind key led = some a ∧ alookup a led = some m ∧
      0 < entryLen key m := by
  induction led with
  | nil => simp [ledgerCount] at hpos
  | cons p t ih =>
    obtain ⟨a₀, m₀⟩ := p
    simp only [List.map_cons, List.nodup_cons] at hnd
    obtain ⟨hna, hnt⟩ := hnd
    by_cases h0 : 0 < entryLen key m₀
    · refine ⟨a₀, m₀, ?_, ?_, h0⟩
      · show Devices.autoFind key ((a₀, m₀) :: t) = some a₀
        simp only [Devices.autoFind]
        exact if_pos h0
      · simp [alookup]
    · rw [ledgerCount_cons] at hpos
      have hred : entryLen key (a₀, m₀).2 = entryLen key m₀ := rfl
      rw [hred] at hpos
      have hpos' : 0 < ledgerCount t key := by omega
      obtain ⟨a, m, hfind, hlook, hlen⟩ := ih hpos' hnt
      have hne : a₀ ≠ a := by
        intro hh
        subst hh
        exact hna (by
          have := alookup_mem hlook
          exact List.mem_map_of_mem Prod.fst this)
      refine ⟨a, m, ?_, ?_, hlen⟩
      · show Devices.autoFind key ((a₀, m₀) :: t) = some a
        simp only [Devices.autoFind]
        exact (if_neg h0).trans hfind
      · simp [alookup, hne, hlook]

/-- Success inversion for `_wolock_acquire`: it succeeds exactly on a
registered key, bumps its count and extends the ledger, leaving every
other field unchanged. -/
theorem wolock_acquire_ok_elim {s s' : State} {key acq : String} {ts : Nat}
    (h : Devices.wolock_acquire s key acq ts = Except.ok s') :
    ∃ n, alookup key s.refcount = some n ∧
      s'.refcount = aset key (n + 1) s.refcount ∧
      s'.acquirer = acquireLedger acq key ts s.acquirer ∧
      s'.devinfo = s.devinfo ∧ s'.infos = s.infos ∧
      s'.deviceIdClass = s.deviceIdClass ∧ s'.deviceClasses = s.deviceClasses ∧
      s'.whitelist = s.whitelist ∧ s'.blacklist = s.blacklist := by
  unfold Devices.wolock_acquire at h
  split at h
  · exact absurd h (by simp)
  · rename_i n hrc
    simp only [Except.ok.injEq] at h
    subst h
    exact ⟨n, hrc, rfl, rfl, rfl, rfl, rfl, rfl, rfl, rfl⟩

/-- Ledger accounting for `_wolock_acquire`: the total for the acquired
device grows by one, every other total is unchanged. -/
theorem acquireLedger_count (acq key : String) (ts : Nat)
    (led : List (String × List (String × List Nat))) (d : String) :
    ledgerCount (acquireLedger acq key ts led) d
      = ledgerCount led d + (if d = key then 1 else 0) := by
  unfold acquireLedger
  split
  · rename_i m hm
    split
    · rename_i l hl
      have hkey := ledgerCount_aset acq m (aset key (l ++ [ts]) m) led d hm
      by_cases hd : d = key
      · rw [if_pos hd]
        subst hd
        rw [entryLen_aset_self] at hkey
        simp only [List.length_append, List.length_cons, List.length_nil] at hkey
        have he : entryLen d m = l.length := by simp [entryLen, hl]
        omega
      · rw [if_neg hd]
        rw [entryLen_aset_ne _ _ (fun hh => hd hh.symm)] at hkey
        omega
    · rename_i hl
      have hkey := ledgerCount_aset acq m (aset key [ts] m) led d hm
      by_cases hd : d = key
      · rw [if_pos hd]
        subst hd
        rw [entryLen_aset_self] at hkey
        simp only [List.length_cons, List.length_nil] at hkey
        have he : entryLen d m = 0 := by simp [entryLen, hl]
        omega
      · rw [if_neg hd]
        rw [entryLen_aset_ne _ _ (fun hh => hd hh.symm)] at hkey
        omega
  · rename_i hm
    rw [ledgerCount_append]
    by_cases hd : d = key
    · rw [if_pos hd]
      subst hd
      simp [ledgerCount_cons, ledgerCount_nil, entryLen, alookup]
    · rw [if_neg hd]
      have hne : key ≠ d := fun hh => hd hh.symm
      simp [ledgerCount_cons, ledgerCount_nil, entryLen, alookup, hne]

/-- Updating any key preserves presence of any key. -/
theorem alookup_aset_isSome {κ α : Type} [DecidableEq κ] (k d : κ) (v : α)
    (l : List (κ × α)) (h : (alookup d l).isSome = true) :
    (alookup d (aset k v l)).isSome = true := by
  by_cases hd : k = d
  · subst hd
    simp
  · rw [alookup_aset_ne _ _ hd]
    exact h

/-- `_wolock_acquire` preserves full well-formedness. -/
theorem WF_wolock_acquire {s s' : State} {key acq : String} {ts : Nat}
    (hwf : WF s) (h : Devices.wolock_acquire s key acq ts = Except.ok s') :
    WF s' := by
  obtain ⟨n, hrc, hrc', hled, hdev, hinf, hidc, hdcs, hwl, hbl⟩ :=
    wolock_acquire_ok_elim h
  have hrcSome : (alookup key s.refcount).isSome = true := by rw [hrc]; rfl
  have hmf : s'.refcount.map Prod.fst = s.refcount.map Prod.fst := by
    rw [hrc']
    exact aset_map_fst_of_lookup_some _ hrcSome
  have hrcPres : ∀ d, (alookup d s.refcount).isSome = true →
      (alookup d s'.refcount).isSome = true := by
    intro d hd
    rw [hrc']
    exact alookup_aset_isSome _ _ _ _ hd
  -- case analysis on the shape of the new ledger
  have hledCases :
      (∃ m, alookup acq s.acquirer = some m ∧
        ∃ v, (v = ((alookup key m).getD []) ++ [ts] ∨ (alookup key m = none ∧ v = [ts])) ∧
          s'.acquirer = aset acq (aset key v m) s.acquirer) ∨
      (alookup acq s.acquirer = none ∧
        s'.acquirer = s.acquirer ++ [(acq, [(key, [ts])])]) := by
    rw [hled]
    unfold acquireLedger
    split
    · rename_i m hm
      split
      · rename_i l hl
        exact Or.inl ⟨m, hm, l ++ [ts], Or.inl (by simp [hl]), rfl⟩
      · rename_i hl
        exact Or.inl ⟨m, hm, [ts], Or.inr ⟨hl, rfl⟩, rfl⟩
    · rename_i hm
      exact Or.inr ⟨hm, rfl⟩
  have hcount : ∀ d n', alookup d s'.refcount = some n' →
      n' = ledgerCount s'.acquirer d := by
    intro d n' hd
    have hC : ledgerCount s'.acquirer d
        = ledgerCount s.acquirer d + (if d = key then 1 else 0) := by
      rw [hled]; exact acquireLedger_count acq key ts s.acquirer d
    by_cases hdk : d = key
    · subst hdk
      rw [hrc', alookup_aset_self] at hd
      have hn' : n + 1 = n' := by injection hd
      rw [hC, if_pos rfl, ← hwf.count d n hrc]
      omega
    · rw [hrc', alookup_aset_ne _ _ (fun hh => hdk hh.symm)] at hd
      rw [hC, if_neg hdk, ← hwf.count d n' hd]
      omega
  refine ⟨⟨?_, ?_, ?_, ?_, hcount, ?_, ?_, ?_, ?_⟩, ?_⟩
  · -- acqNodup
    rcases hledCases with ⟨m, hm, v, _, hA⟩ | ⟨hm, hA⟩
    · rw [hA, aset_map_fst_of_lookup_some _ (by rw [hm]; rfl)]
      exact hwf.acqNodup
    · rw [hA]
      simp only [List.map_append, List.map_cons, List.map_nil]
      rw [List.nodup_append]
      refine ⟨hwf.acqNodup, List.nodup_singleton _, ?_⟩
      intro a ha hb
      simp at hb
      subst hb
      rw [alookup_eq_none_iff] at hm
      exact hm ha
  · -- innerNodup
    intro p hp
    rcases hledCases with ⟨m, hm, v, _, hA⟩ | ⟨hm, hA⟩
    · rw [hA] at hp
      rcases mem_aset hp with hp' | hp'
      · rw [hp']
        show ((aset key v m).map Prod.fst).Nodup
        cases hl : alookup key m with
        | some l =>
          rw [aset_map_fst_of_lookup_some _ (by rw [hl]; rfl)]
          exact hwf.innerNodup _ (alookup_mem hm)
        | none =>
          rw [aset_map_fst_of_lookup_none _ hl]
          rw [List.nodup_append]
          refine ⟨hwf.innerNodup _ (alookup_mem hm), List.nodup_singleton _, ?_⟩
          intro a ha hb
          simp at hb
          subst hb
          rw [alookup_eq_none_iff] at hl
          exact hl ha
      · exact hwf.innerNodup _ hp'
    · rw [hA] at hp
      rcases List.mem_append.mp hp with hp' | hp'
      · exact hwf.innerNodup _ hp'
      · simp at hp'
        rw [hp']
        simp
  · -- listsNonempty
    intro p hp q hq
    rcases hledCases with ⟨m, hm, v, hv, hA⟩ | ⟨hm, hA⟩
    · rw [hA] at hp
      rcases mem_aset hp with hp' | hp'
      · rw [hp'] at hq
        rcases mem_aset hq with hq' | hq'
        · rw [hq']
          rcases hv with hv | ⟨_, hv⟩ <;> simp [hv]
        · exact hwf.listsNonempty _ (alookup_mem hm) _ hq'
      · exact hwf.listsNonempty _ hp' _ hq
    · rw [hA] at hp
      rcases List.mem_append.mp hp with hp' | hp'
      · exact hwf.listsNonempty _ hp' _ hq
      · simp at hp'
        rw [hp'] at hq
        simp at hq
        rw [hq]
        simp
  · -- mapsNonempty
    intro p hp
    rcases hledCases with ⟨m, hm, v, _, hA⟩ | ⟨hm, hA⟩
    · rw [hA] at hp
      rcases mem_aset hp with hp' | hp'
      · rw [hp']
        show aset key v m ≠ []
        intro hcon
        have hsome := alookup_aset_self key v m
        rw [hcon] at hsome
        simp [alookup] at hsome
      · exact hwf.mapsNonempty _ hp'
    · rw [hA] at hp
      rcases List.mem_append.mp hp with hp' | hp'
      · exact hwf.mapsNonempty _ hp'
      · simp at hp'
        rw [hp']
        simp
  · -- devNodup
    rw [hdev]
    exact hwf.devNodup
  · -- devRc
    intro p hp
    rw [hdev] at hp
    exact hrcPres _ (hwf.devRc _ hp)
  · -- rcDev
    intro p hp
    rw [hrc'] at hp
    rw [hdev]
    rcases mem_aset hp with hp' | hp'
    · rw [hp']
      show (alookup key s.devinfo).isSome = true
      exact hwf.rcDev _ (alookup_mem hrc)
    · exact hwf.rcDev _ hp'
  · -- devClass
    intro p hp
    rw [hdev] at hp
    rw [hidc]
    exact hwf.devClass _ hp
  · -- ledgerReg
    intro p hp q hq
    rcases hledCases with ⟨m, hm, v, _, hA⟩ | ⟨hm, hA⟩
    · rw [hA] at hp
      rcases mem_aset hp with hp' | hp'
      · rw [hp'] at hq
        rcases mem_aset hq with hq' | hq'
        · rw [hq']
          exact hrcPres _ hrcSome
        · exact hrcPres _ (hwf.ledgerReg _ (alookup_mem hm) _ hq')
      · exact hrcPres _ (hwf.ledgerReg _ hp' _ hq)
    · rw [hA] at hp
      rcases List.mem_append.mp hp with hp' | hp'
      · exact hrcPres _ (hwf.ledgerReg _ hp' _ hq)
      · simp at hp'
        rw [hp'] at hq
        simp at hq
        rw [hq]
        exact hrcPres _ hrcSome

/-- Success inversion for `_wolock_release`. -/
theorem wolock_release_ok_elim {s s' : State} {key : String} {acq : Option String}
    (h : Devices.wolock_release s key acq = Except.ok s') :
    ∃ n a m l, alookup key s.refcount = some n ∧ ¬ n = 0 ∧
      (acq = some a ∨ (acq = none ∧ Devices.autoFind key s.acquirer = some a)) ∧
      alookup a s.acquirer = some m ∧ alookup key m = some l ∧ ¬ l.length = 0 ∧
      s'.refcount = aset key (n - 1) s.refcount ∧
      s'.acquirer = releaseLedger a key m l s.acquirer ∧
      s'.devinfo = s.devinfo ∧ s'.infos = s.infos ∧
      s'.deviceIdClass = s.deviceIdClass ∧ s'.deviceClasses = s.deviceClasses ∧
      s'.whitelist = s.whitelist ∧ s'.blacklist = s.blacklist := by
  unfold Devices.wolock_release at h
  split at h
  · exact absurd h (by simp)
  · rename_i n hrc
    split at h
    · exact absurd h (by simp)
    · rename_i hn
      split at h
      · exact absurd h (by simp)
      · rename_i a hres
        split at h
        · exact absurd h (by simp)
        · rename_i m hm
          split at h
          · exact absurd h (by simp)
          · rename_i l hl
            split at h
            · exact absurd h (by simp)
            · rename_i hlen
              simp only [Except.ok.injEq] at h
              subst h
              refine ⟨n, a, m, l, hrc, hn, ?_, hm, hl, hlen,
                rfl, rfl, rfl, rfl, rfl, rfl, rfl, rfl⟩
              cases acq with
              | some a₀ =>
                left
                have ha : a₀ = a := by
                  simpa [Devices.resolveAcquirer] using hres
                rw [ha]
              | none =>
                right
                exact ⟨rfl, by simpa [Devices.resolveAcquirer] using hres⟩

/-- If erasing key `k` empties a map, the map held nothing else. -/
theorem alookup_of_aerase_nil {κ α : Type} [DecidableEq κ] {k d : κ}
    {m : List (κ × α)} (h : aerase k m = []) (hd : d ≠ k) :
    alookup d m = none := by
  induction m with
  | nil => simp
  | cons p t ih =>
    obtain ⟨k', v⟩ := p
    by_cases hk : k' = k
    · subst hk
      simp only [aerase, if_pos rfl] at h
      have hne : ¬ k' = d := fun hh => hd (hh ▸ rfl)
      simp [alookup, hne, ih h]
    · simp [aerase, hk] at h

/-- Ledger accounting for `_wolock_release`: the total for the released
device drops by one, every other total is unchanged. -/
theorem releaseLedger_count (a key : String) (m : List (String × List Nat))
    (l : List Nat) (led : List (String × List (String × List Nat))) (d : String)
    (hm : alookup a led = some m) (hl : alookup key m = some l)
    (hlne : ¬ l.length = 0) (hnd : (led.map Prod.fst).Nodup) :
    ledgerCount (releaseLedger a key m l led) d + (if d = key then 1 else 0)
      = ledgerCount led d := by
  unfold releaseLedger
  have hentry : entryLen key m = l.length := by simp [entryLen, hl]
  have hdll : l.dropLast.length = l.length - 1 := List.length_dropLast l
  by_cases hld : l.dropLast = []
  · have hlen1 : l.length = 1 := by
      rw [hld] at hdll
      simp at hdll
      omega
    rw [if_pos hld]
    by_cases hm' : aerase key m = []
    · rw [if_pos hm']
      have hc := ledgerCount_aerase a m led d hm hnd
      by_cases hd : d = key
      · rw [if_pos hd]
        subst hd
        omega
      · rw [if_neg hd]
        have h0 : entryLen d m = 0 := by
          simp [entryLen, alookup_of_aerase_nil hm' (fun hh => hd hh)]
        omega
    · rw [if_neg hm']
      have hc := ledgerCount_aset a m (aerase key m) led d hm
      by_cases hd : d = key
      · rw [if_pos hd]
        subst hd
        rw [entryLen_aerase_self] at hc
        omega
      · rw [if_neg hd]
        rw [entryLen_aerase_ne _ (fun hh => hd hh.symm)] at hc
        omega
  · rw [if_neg hld]
    have hc := ledgerCount_aset a m (aset key l.dropLast m) led d hm
    by_cases hd : d = key
    · rw [if_pos hd]
      subst hd
      rw [entryLen_aset_self] at hc
      omega
    · rw [if_neg hd]
      rw [entryLen_aset_ne _ _ (fun hh => hd hh.symm)] at hc
      omega

theorem aset_ne_nil {κ α : Type} [DecidableEq κ] (k : κ) (v : α)
    (l : List (κ × α)) : aset k v l ≠ [] := by
  intro h
  have hs := alookup_aset_self k v l
  rw [h] at hs
  simp [alookup] at hs

/-- `_wolock_release` preserves well-formedness minus ledger/registry
agreement (`RInv`). -/
theorem RInv_wolock_release {s s' : State} {key : String} {acq : Option String}
    (hr : RInv s) (h : Devices.wolock_release s key acq = Except.ok s') :
    RInv s' := by
  obtain ⟨n, a, m, l, hrc, hn, hres, hm, hl, hlen, hrc', hled,
    hdev, hinf, hidc, hdcs, hwl, hbl⟩ := wolock_release_ok_elim h
  have hmSome : (alookup a s.acquirer).isSome = true := by rw [hm]; rfl
  have hlSome : (alookup key m).isSome = true := by rw [hl]; rfl
  have hrcPres : ∀ d, (alookup d s.refcount).isSome = true →
      (alookup d s'.refcount).isSome = true := by
    intro d hd
    rw [hrc']
    exact alookup_aset_isSome _ _ _ _ hd
  have hledCases :
      (l.dropLast ≠ [] ∧ s'.acquirer = aset a (aset key l.dropLast m) s.acquirer) ∨
      (aerase key m ≠ [] ∧ s'.acquirer = aset a (aerase key m) s.acquirer) ∨
      (s'.acquirer = aerase a s.acquirer) := by
    rw [hled]
    unfold releaseLedger
    by_cases hld : l.dropLast = []
    · rw [if_pos hld]
      by_cases hm' : aerase key m = []
      · rw [if_pos hm']
        exact Or.inr (Or.inr rfl)
      · rw [if_neg hm']
        exact Or.inr (Or.inl ⟨hm', rfl⟩)
    · rw [if_neg hld]
      exact Or.inl ⟨hld, rfl⟩
  have hcount : ∀ d n', alookup d s'.refcount = some n' →
      n' = ledgerCount s'.acquirer d := by
    intro d n' hd
    have hC := releaseLedger_count a key m l s.acquirer d hm hl hlen hr.acqNodup
    rw [← hled] at hC
    by_cases hdk : d = key
    · subst hdk
      rw [hrc', alookup_aset_self] at hd
      have hn' : n - 1 = n' := by injection hd
      have hcnt := hr.count d n hrc
      rw [if_pos rfl] at hC
      omega
    · rw [hrc', alookup_aset_ne _ _ (fun hh => hdk hh.symm)] at hd
      rw [if_neg hdk] at hC
      have := hr.count d n' hd
      omega
  refine ⟨?_, ?_, ?_, ?_, hcount, ?_, ?_, ?_, ?_⟩
  · -- acqNodup
    rcases hledCases with ⟨_, hA⟩ | ⟨_, hA⟩ | hA
    · rw [hA, aset_map_fst_of_lookup_some _ hmSome]
      exact hr.acqNodup
    · rw [hA, aset_map_fst_of_lookup_some _ hmSome]
      exact hr.acqNodup
    · rw [hA, aerase_map_fst]
      exact hr.acqNodup.filter _
  · -- innerNodup
    intro p hp
    rcases hledCases with ⟨_, hA⟩ | ⟨_, hA⟩ | hA
    · rw [hA] at hp
      rcases mem_aset hp with hp' | hp'
      · rw [hp']
        show ((aset key l.dropLast m).map Prod.fst).Nodup
        rw [aset_map_fst_of_lookup_some _ hlSome]
        exact hr.innerNodup _ (alookup_mem hm)
      · exact hr.innerNodup _ hp'
    · rw [hA] at hp
      rcases mem_aset hp with hp' | hp'
      · rw [hp']
        show ((aerase key m).map Prod.fst).Nodup
        rw [aerase_map_fst]
        exact (hr.innerNodup _ (alookup_mem hm)).filter _
      · exact hr.innerNodup _ hp'
    · rw [hA] at hp
      exact hr.innerNodup _ (mem_aerase hp).1
  · -- listsNonempty
    intro p hp q hq
    rcases hledCases with ⟨hld, hA⟩ | ⟨_, hA⟩ | hA
    · rw [hA] at hp
      rcases mem_aset hp with hp' | hp'
      · rw [hp'] at hq
        rcases mem_aset hq with hq' | hq'
        · rw [hq']
          exact hld
        · exact hr.listsNonempty _ (alookup_mem hm) _ hq'
      · exact hr.listsNonempty _ hp' _ hq
    · rw [hA] at hp
      rcases mem_aset hp with hp' | hp'
      · rw [hp'] at hq
        exact hr.listsNonempty _ (alookup_mem hm) _ (mem_aerase hq).1
      · exact hr.listsNonempty _ hp' _ hq
    · rw [hA] at hp
      exact hr.listsNonempty _ (mem_aerase hp).1 _ hq
  · -- mapsNonempty
    intro p hp
    rcases hledCases with ⟨_, hA⟩ | ⟨hm', hA⟩ | hA
    · rw [hA] at hp
      rcases mem_aset hp with hp' | hp'
      · rw [hp']
        exact aset_ne_nil _ _ _
      · exact hr.mapsNonempty _ hp'
    · rw [hA] at hp
      rcases mem_aset hp with hp' | hp'
      · rw [hp']
        exact hm'
      · exact hr.mapsNonempty _ hp'
    · rw [hA] at hp
      exact hr.mapsNonempty _ (mem_aerase hp).1
  · -- devNodup
    rw [hdev]
    exact hr.devNodup
  · -- devRc
    intro p hp
    rw [hdev] at hp
    exact hrcPres _ (hr.devRc _ hp)
  · -- rcDev
    intro p hp
    rw [hrc'] at hp
    rw [hdev]
    rcases mem_aset hp with hp' | hp'
    · rw [hp']
      show (alookup key s.devinfo).isSome = true
      exact hr.rcDev _ (alookup_mem hrc)
    · exact hr.rcDev _ hp'
  · -- devClass
    intro p hp
    rw [hdev] at hp
    rw [hidc]
    exact hr.devClass _ hp

/-- `_wolock_release` preserves full well-formedness. -/
theorem WF_wolock_release {s s' : State} {key : String} {acq : Option String}
    (hwf : WF s) (h : Devices.wolock_release s key acq = Except.ok s') :
    WF s' := by
  obtain ⟨n, a, m, l, hrc, hn, hres, hm, hl, hlen, hrc', hled,
    hdev, hinf, hidc, hdcs, hwl, hbl⟩ := wolock_release_ok_elim h
  refine ⟨RInv_wolock_release hwf.toRInv h, ?_⟩
  have hrcPres : ∀ d, (alookup d s.refcount).isSome = true →
      (alookup d s'.refcount).isSome = true := by
    intro d hd
    rw [hrc']
    exact alookup_aset_isSome _ _ _ _ hd
  have hkeyReg : (alookup key s'.refcount).isSome = true := by
    rw [hrc', alookup_aset_self]
    rfl
  intro p hp q hq
  have hledCases :
      (s'.acquirer = aset a (aset key l.dropLast m) s.acquirer) ∨
      (s'.acquirer = aset a (aerase key m) s.acquirer) ∨
      (s'.acquirer = aerase a s.acquirer) := by
    rw [hled]
    unfold releaseLedger
    by_cases hld : l.dropLast = []
    · rw [if_pos hld]
      by_cases hm' : aerase key m = []
      · rw [if_pos hm']
        exact Or.inr (Or.inr rfl)
      · rw [if_neg hm']
        exact Or.inr (Or.inl rfl)
    · rw [if_neg hld]
      exact Or.inl rfl
  rcases hledCases with hA | hA | hA
  · rw [hA] at hp
    rcases mem_aset hp with hp' | hp'
    · rw [hp'] at hq
      rcases mem_aset hq with hq' | hq'
      · rw [hq']
        exact hkeyReg
      · exact hrcPres _ (hwf.ledgerReg _ (alookup_mem hm) _ hq')
    · exact hrcPres _ (hwf.ledgerReg _ hp' _ hq)
  · rw [hA] at hp
    rcases mem_aset hp with hp' | hp'
    · rw [hp'] at hq
      exact hrcPres _ (hwf.ledgerReg _ (alookup_mem hm) _ (mem_aerase hq).1)
    · exact hrcPres _ (hwf.ledgerReg _ hp' _ hq)
  · rw [hA] at hp
    exact hrcPres _ (hwf.ledgerReg _ (mem_aerase hp).1 _ hq)

/-- Forward computation of a successful `_wolock_release`: with the
scrutinised lookups pinned down, the call returns exactly the popped
state. -/
theorem wolock_release_ok' {s : State} {key : String} {acq : Option String}
    {a : String} {m : List (String × List Nat)} {l : List Nat} {n : Nat}
    (hrc : alookup key s.refcount = some n) (hn : ¬ n = 0)
    (hres : Devices.resolveAcquirer key s.acquirer acq = some a)
    (hm : alookup a s.acquirer = some m) (hl : alookup key m = some l)
    (hlne : ¬ l.length = 0) :
    Devices.wolock_release s key acq
      = Except.ok { s with refcount := aset key (n - 1) s.refcount,
                           acquirer := releaseLedger a key m l s.acquirer } := by
  unfold Devices.wolock_release
  rw [hrc]
  simp only [hres, hm, hl, if_neg hn, if_neg hlne]
  rfl

/-- Forward computation of a successful `_wolock_add`. -/
theorem wolock_add_ok' {s : State} {key : String} {dc : DeviceClass}
    {d : DevObj} {i : DeviceInfo}
    (hdc : alookup key s.deviceIdClass = some dc)
    (hadopt : dc.adoptResult key = Except.ok (d, i)) :
    Devices.wolock_add s key
      = Except.ok { s with devinfo := aset key (d, i) s.devinfo,
                           refcount := aset key 0 s.refcount,
                           infos := aset i key s.infos } := by
  unfold Devices.wolock_add
  rw [hdc]
  simp only [hadopt]

/-- Success inversion for `_wolock_add`. -/
theorem wolock_add_ok_elim {s s' : State} {key : String}
    (h : Devices.wolock_add s key = Except.ok s') :
    ∃ dc d i, alookup key s.deviceIdClass = some dc ∧
      dc.adoptResult key = Except.ok (d, i) ∧
      s' = { s with devinfo := aset key (d, i) s.devinfo,
                    refcount := aset key 0 s.refcount,
                    infos := aset i key s.infos } := by
  unfold Devices.wolock_add at h
  split at h
  · exact absurd h (by simp)
  · rename_i dc hdc
    split at h
    · exact absurd h (by simp)
    · rename_i di hadopt
      simp only [Except.ok.injEq] at h
      exact ⟨dc, di.1, di.2, hdc, hadopt, h.symm⟩

/-- Success inversion for `_wolock_remove`. -/
theorem wolock_remove_ok_elim {s s' : State} {key : String}
    (h : Devices.wolock_remove s key = Except.ok s') :
    ∃ s1 dev inf dc, (alookup key s.refcount).isSome = true ∧
      (if 0 < ((alookup key s.refcount).getD 0)
       then Devices.wolock_release s key none else Except.ok s) = Except.ok s1 ∧
      alookup key s1.devinfo = some (dev, inf) ∧
      alookup key s1.deviceIdClass = some dc ∧
      dc.abandonResult inf dev = Except.ok () ∧
      s' = { s1 with devinfo := aerase key s1.devinfo,
                     refcount := aerase key s1.refcount,
                     infos := aerase inf s1.infos } := by
  unfold Devices.wolock_remove Devices.validate at h
  split at h
  · rename_i e heq
    exact absurd h (by simp)
  · rename_i u heq
    have hval : (alookup key s.refcount).isSome = true := by
      by_cases hv : (alookup key s.refcount).isSome = true
      · exact hv
      · rw [if_neg hv] at heq
        cases heq
    split at h
    · exact absurd h (by simp)
    · rename_i s1 hs1
      split at h
      · exact absurd h (by simp)
      · rename_i di hdev
        split at h
        · exact absurd h (by simp)
        · rename_i dc hdc
          split at h
          · exact absurd h (by simp)
          · rename_i u' hab
            simp only [Except.ok.injEq] at h
            have hab' : dc.abandonResult di.2 di.1 = Except.ok () := by
              rw [hab]
            exact ⟨s1, di.1, di.2, dc, hval, hs1, hdev, hdc, hab', h.symm⟩

/-- Deleting a device's forward, refcount and reverse-index entries
preserves `RInv` (the Lease Ledger may keep dangling entries for the
deleted key; `RInv` does not constrain them). -/
theorem RInv_erase {s1 : State} (key : String) (inf : DeviceInfo)
    (hr : RInv s1) :
    RInv { s1 with devinfo := aerase key s1.devinfo,
                   refcount := aerase key s1.refcount,
                   infos := aerase inf s1.infos } := by
  refine ⟨hr.acqNodup, hr.innerNodup, hr.listsNonempty, hr.mapsNonempty, ?_,
    ?_, ?_, ?_, ?_⟩
  · -- count
    intro d n hd
    simp only at hd
    by_cases hdk : d = key
    · subst hdk
      rw [alookup_aerase_self] at hd
      cases hd
    · rw [alookup_aerase_ne _ (fun hh => hdk hh.symm)] at hd
      exact hr.count d n hd
  · -- devNodup
    simp only [aerase_map_fst]
    exact hr.devNodup.filter _
  · -- devRc
    intro p hp
    simp only at hp ⊢
    obtain ⟨hp1, hp2⟩ := mem_aerase hp
    rw [alookup_aerase_ne _ (fun hh => hp2 hh.symm)]
    exact hr.devRc _ hp1
  · -- rcDev
    intro p hp
    simp only at hp ⊢
    obtain ⟨hp1, hp2⟩ := mem_aerase hp
    rw [alookup_aerase_ne _ (fun hh => hp2 hh.symm)]
    exact hr.rcDev _ hp1
  · -- devClass
    intro p hp
    simp only at hp ⊢
    obtain ⟨hp1, _⟩ := mem_aerase hp
    exact hr.devClass _ hp1

/-- `_wolock_remove` preserves `RInv`. -/
theorem RInv_wolock_remove {s s' : State} {key : String}
    (hr : RInv s) (h : Devices.wolock_remove s key = Except.ok s') :
    RInv s' := by
  obtain ⟨s1, dev, inf, dc, hval, hs1, hdev, hdc, hab, hs'⟩ :=
    wolock_remove_ok_elim h
  have hr1 : RInv s1 := by
    by_cases hc : 0 < ((alookup key s.refcount).getD 0)
    · rw [if_pos hc] at hs1
      exact RInv_wolock_release hr hs1
    · rw [if_neg hc] at hs1
      injection hs1 with hss
      rw [← hss]
      exact hr
  rw [hs']
  exact RInv_erase key inf hr1

end Devices

/-- C8: for every registered device, `available` returns true exactly when
the owning plugin's capacity is the unlimited sentinel `-1` or the current
lease count is strictly below the capacity; for an unregistered identifier
it fails with the unknown-device ("not found") error. -/
theorem C8_available_iff :
    (∀ (s : State) (key : String) (n : Nat) (dc : DeviceClass),
        alookup key s.refcount = some n →
        alookup key s.deviceIdClass = some dc →
        (Devices.available s key = Except.ok true ↔
          (dc.maxRefCount = -1 ∨ (n : Int) < dc.maxRefCount))) ∧
    (∀ (s : State) (key : String),
        alookup key s.refcount = none →
        Devices.available s key = Except.error ("unknown device " ++ key)) := by
  constructor
  · intro s key n dc hrc hdc
    unfold Devices.available
    rw [hrc]
    simp only [hdc, Except.ok.injEq, Bool.or_eq_true, decide_eq_true_eq]
  · intro s key hrc
    unfold Devices.available
    rw [hrc]

/-- C8 witness: `available` evaluated on the concrete one-device registry
`sFull` (capacity 1, lease count 1): not available. -/
theorem C8_witness :
    alookup "X" sFull.refcount = some 1 ∧
    alookup "X" sFull.deviceIdClass = some dcCap1 ∧
    (Devices.available sFull "X" = Except.ok true ↔
      (dcCap1.maxRefCount = -1 ∨ ((1 : Nat) : Int) < dcCap1.maxRefCount)) ∧
    Devices.available sFull "X" = Except.ok false := by
  refine ⟨rfl, rfl, C8_available_iff.1 sFull "X" 1 dcCap1 rfl rfl, rfl⟩

/-- C2 counterexample: on the concrete registry `sFull` the device "X"
has lease count 1, yet `acquired` returns the plugin-allocated device
object `DevObj.obj 7` stored in the first slot of the registry entry,
which is not the Device Info record that `info` returns — refuting
"acquired returns the Device Info record, never the handle". -/
theorem C2_counterexample :
    Devices.acquired sFull "X" = Except.ok (DevObj.obj 7) ∧
    Devices.info sFull "X" = Except.ok infoX ∧
    DevObj.obj 7 ≠ DevObj.infoRec infoX := by
  refine ⟨rfl, rfl, by decide⟩

/-- C2 amended: for a registered device with positive lease count,
`acquired` returns the first slot of the registry entry — the
plugin-allocated device object, not the Device Info record — and for
lease count zero it fails with the "not acquired" error. -/
theorem C2_amended_acquired :
    ∀ (s : State) (key : String) (n : Nat) (di : DevObj × DeviceInfo),
      alookup key s.refcount = some n →
      alookup key s.devinfo = some di →
      (0 < n → Devices.acquired s key = Except.ok di.1) ∧
      (n = 0 → Devices.acquired s key
        = Except.error ("device " ++ key ++ " not acquired")) := by
  intro s key n di hrc hdev
  unfold Devices.acquired
  rw [hrc]
  constructor
  · intro hn
    simp only [if_pos hn, hdev]
  · intro hn
    subst hn
    simp only [lt_self_iff_false, if_false]

/-- C2 witness: the amended statement evaluated on `sFull`. -/
theorem C2_witness :
    0 < 1 ∧ Devices.acquired sFull "X" = Except.ok (DevObj.obj 7) :=
  ⟨Nat.one_pos,
    (C2_amended_acquired sFull "X" 1 (DevObj.obj 7, infoX) rfl rfl).1 Nat.one_pos⟩

/-- C5 counterexample: with the non-empty Allow List `["A"]`, manual
`add` of the adoptable identifier "B" — which is not on the Allow List —
succeeds, refuting "when the Allow List is non-empty, add fails for every
identifier not on it". -/
theorem C5_counterexample :
    sAllowList.whitelist = ["A"] ∧ "B" ∉ sAllowList.whitelist ∧
    Devices.add sAllowList "B"
      = Except.ok { devinfo := [("B", (DevObj.obj 2, infoB))],
                    refcount := [("B", 0)], acquirer := [],
                    infos := [(infoB, "B")],
                    deviceIdClass := [("B", dcB)], deviceClasses := [dcB],
                    whitelist := ["A"], blacklist := [] } := by
  refine ⟨rfl, by decide, rfl⟩

/-- C5 amended: `add` consults the Deny List — a denied identifier fails
with the blacklisted error — but never the Allow List: an adoptable,
non-denied, unregistered identifier is added successfully whatever the
Allow List contains. -/
theorem C5_amended_add :
    (∀ (s : State) (key : String),
      (alookup key s.deviceIdClass).isSome = true → key ∈ s.blacklist →
      Devices.add s key = Except.error ("device " ++ key ++ " blacklisted")) ∧
    (∀ (s : State) (key : String) (dc : DeviceClass) (d : DevObj) (i : DeviceInfo),
      alookup key s.deviceIdClass = some dc → key ∉ s.blacklist →
      alookup key s.refcount = none → dc.adoptResult key = Except.ok (d, i) →
      Devices.add s key
        = Except.ok { s with devinfo := aset key (d, i) s.devinfo,
                             refcount := aset key 0 s.refcount,
                             infos := aset i key s.infos }) := by
  constructor
  · intro s key hdc hbl
    unfold Devices.add
    have hne : ¬ (alookup key s.deviceIdClass).isNone = true := by
      simp only [Option.isNone_iff_eq_none]
      intro hh
      rw [hh] at hdc
      cases hdc
    rw [if_neg hne, if_pos hbl]
  · intro s key dc d i hdc hbl hrc hadopt
    unfold Devices.add
    rw [if_neg (by rw [hdc]; simp), if_neg hbl,
      if_neg (by rw [hrc]; simp)]
    rw [Devices.wolock_add_ok' hdc hadopt]

/-- C5 witness: the amended statement evaluated on `sAllowList`. -/
theorem C5_witness :
    alookup "B" sAllowList.deviceIdClass = some dcB ∧
    Devices.add sAllowList "B"
      = Except.ok { sAllowList with
                    devinfo := aset "B" (DevObj.obj 2, infoB) sAllowList.devinfo,
                    refcount := aset "B" 0 sAllowList.refcount,
                    infos := aset infoB "B" sAllowList.infos } :=
  ⟨rfl, C5_amended_add.2 sAllowList "B" dcB (DevObj.obj 2) infoB rfl
    (by decide) rfl rfl⟩

/-- With none of the seven recognized criteria keys present, every info
record satisfies the `_wolock_match` filter. -/
theorem matchPred_trivial (rmatch : String → String → Bool) (s : State)
    (args : List (String × String)) (i : DeviceInfo) (sid : String)
    (hid : alookup "id" args = none) (hty : alookup "type" args = none)
    (hsw : alookup "sw" args = none) (hhw : alookup "hw" args = none)
    (hdi : alookup "display" args = none) (hfr : alookup "free" args = none)
    (hbu : alookup "busy" args = none) :
    Devices.matchPred rmatch s args i sid = Except.ok true := by
  unfold Devices.matchPred Devices.criterion Devices.busyClause
  rw [hid, hty, hsw, hhw, hdi, hfr, hbu]
  simp

/-- A constantly-true filter keeps every serial, in order. -/
theorem matchFilter_all_true (rmatch : String → String → Bool) (s : State)
    (args : List (String × String))
    (hpred : ∀ i sid, Devices.matchPred rmatch s args i sid = Except.ok true) :
    ∀ L : List (DeviceInfo × String),
      Devices.matchFilter rmatch s args L = Except.ok (L.map Prod.snd) := by
  intro L
  induction L with
  | nil => rfl
  | cons p t ih =>
    obtain ⟨i, sid⟩ := p
    unfold Devices.matchFilter
    rw [hpred i sid, ih]
    simp

/-- C10: `match` silently ignores every criteria key other than the seven
recognized ones: with none of them present, it returns the serials of all
registered info records, the same result as an empty criteria set. -/
theorem C10_match_unknown_keys :
    ∀ (rmatch : String → String → Bool) (s : State)
      (args : List (String × String)),
      alookup "id" args = none → alookup "type" args = none →
      alookup "sw" args = none → alookup "hw" args = none →
      alookup "display" args = none → alookup "free" args = none →
      alookup "busy" args = none →
      Devices.wolock_match rmatch s args = Except.ok (s.infos.map Prod.snd) ∧
      Devices.wolock_match rmatch s args = Devices.wolock_match rmatch s [] := by
  intro rmatch s args hid hty hsw hhw hdi hfr hbu
  have hargs : Devices.wolock_match rmatch s args
      = Except.ok (s.infos.map Prod.snd) := by
    unfold Devices.wolock_match
    exact matchFilter_all_true rmatch s args
      (fun i sid => matchPred_trivial rmatch s args i sid hid hty hsw hhw hdi hfr hbu)
      s.infos
  have hnil : Devices.wolock_match rmatch s []
      = Except.ok (s.infos.map Prod.snd) := by
    unfold Devices.wolock_match
    exact matchFilter_all_true rmatch s []
      (fun i sid => matchPred_trivial rmatch s [] i sid rfl rfl rfl rfl rfl rfl rfl)
      s.infos
  exact ⟨hargs, hargs.trans hnil.symm⟩

/-- C10 witness: a criteria set with only the unrecognized key "color"
returns every registered serial of `sFull`, like the empty criteria set. -/
theorem C10_witness :
    Devices.wolock_match rmTrue sFull [("color", "red")] = Except.ok ["X"] ∧
    Devices.wolock_match rmTrue sFull [("color", "red")]
      = Devices.wolock_match rmTrue sFull [] :=
  ⟨(C10_match_unknown_keys rmTrue sFull [("color", "red")]
      rfl rfl rfl rfl rfl rfl rfl).1,
   (C10_match_unknown_keys rmTrue sFull [("color", "red")]
      rfl rfl rfl rfl rfl rfl rfl).2⟩

/-- C9: in `acquire` a `None` acquirer is normalized to the anonymous
acquirer `""` (the two calls are indistinguishable), whereas in `release`
a `None` acquirer is the automatic sentinel: on the concrete registry
`sTwoHolders` — where "b" precedes `""` in ledger order and both hold
"X" — `release(X, None)` pops "b"'s lease, leaving `""` untouched, while
`release(X, "")` pops `""`'s lease, leaving "b" untouched. -/
theorem C9_none_acquirer :
    (∀ (rmatch : String → String → Bool) (pick : List String → Nat) (ts : Nat)
        (s : State) (args : List (String × String)),
      Devices.acquire_nonblock rmatch pick ts s none args
        = Devices.acquire_nonblock rmatch pick ts s (some "") args) ∧
    (∃ s', Devices.release sTwoHolders "X" none = Except.ok s' ∧
      s'.acquirer = [("", [("X", [6])])]) ∧
    (∃ s', Devices.release sTwoHolders "X" (some "") = Except.ok s' ∧
      s'.acquirer = [("b", [("X", [5])])]) := by
  refine ⟨fun _ _ _ _ _ => rfl, ⟨_, rfl, rfl⟩, ⟨_, rfl, rfl⟩⟩

/-- C1 counterexample: on the concrete empty registry `sEmpty` (criteria
match nothing) and on `sFull` (criteria match "X", which is at full
capacity), non-blocking acquire returns the same `none` — the two failure
cases are not observably distinct, refuting the claimed `NoMatch` /
`Unavailable` distinction. -/
theorem C1_counterexample :
    Except.map Prod.fst (Devices.acquire_nonblock rmTrue pick0 0 sEmpty none [])
      = Except.ok none ∧
    Except.map Prod.fst (Devices.acquire_nonblock rmTrue pick0 0 sFull none [])
      = Except.ok none := by
  exact ⟨rfl, rfl⟩

/-- C1 amended: non-blocking acquire returns the single signal
`Except.ok (none, s)` (Python `None`) both when the criteria match no
registered device and when they match devices that are all at full
capacity; the caller cannot distinguish the two outcomes. -/
theorem C1_amended_nonblock :
    ∀ (rmatch : String → String → Bool) (pick : List String → Nat) (ts : Nat)
      (s : State) (acq : Option String) (args : List (String × String))
      (matching : List String),
      Devices.wolock_match rmatch s args = Except.ok matching →
      (matching = [] →
        Devices.acquire_nonblock rmatch pick ts s acq args
          = Except.ok (none, s)) ∧
      (Devices.availFilter s matching = Except.ok [] →
        Devices.acquire_nonblock rmatch pick ts s acq args
          = Except.ok (none, s)) := by
  intro rmatch pick ts s acq args matching hmatch
  constructor
  · intro hemp
    unfold Devices.acquire_nonblock
    simp only [hmatch, hemp, if_pos]
  · intro hav
    unfold Devices.acquire_nonblock
    simp only [hmatch]
    by_cases hemp : matching = []
    · rw [if_pos hemp]
    · rw [if_neg hemp]
      simp only [hav, if_pos]

/-- C1 witness: the amended statement evaluated on `sEmpty` (empty match)
and `sFull` (match; nothing available). -/
theorem C1_witness :
    Devices.acquire_nonblock rmTrue pick0 0 sEmpty none []
      = Except.ok (none, sEmpty) ∧
    Devices.acquire_nonblock rmTrue pick0 0 sFull none []
      = Except.ok (none, sFull) :=
  ⟨(C1_amended_nonblock rmTrue pick0 0 sEmpty none [] [] rfl).1 rfl,
   (C1_amended_nonblock rmTrue pick0 0 sFull none [] ["X"] rfl).2 rfl⟩

/-- The idle one-device fixture is well-formed. -/
theorem WF_sIdle : Devices.WF sIdle := by
  refine ⟨⟨?_, ?_, ?_, ?_, ?_, ?_, ?_, ?_, ?_⟩, ?_⟩
  · simp [sIdle]
  · intro p hp
    simp [sIdle] at hp
  · intro p hp
    simp [sIdle] at hp
  · intro p hp
    simp [sIdle] at hp
  · intro d n h
    simp only [sIdle] at h ⊢
    rw [alookup] at h
    split at h
    · injection h with h0
      subst h0
      rfl
    · rw [alookup] at h
      cases h
  · simp [sIdle]
  · intro p hp
    simp only [sIdle, List.mem_singleton] at hp
    subst hp
    rfl
  · intro p hp
    simp only [sIdle, List.mem_singleton] at hp
    subst hp
    rfl
  · intro p hp
    simp only [sIdle, List.mem_singleton] at hp
    subst hp
    rfl
  · intro p hp
    simp [sIdle] at hp

/-- The fully-leased one-device fixture is well-formed. -/
theorem WF_sFull : Devices.WF sFull := by
  refine ⟨⟨?_, ?_, ?_, ?_, ?_, ?_, ?_, ?_, ?_⟩, ?_⟩
  · simp [sFull]
  · intro p hp
    simp only [sFull, List.mem_singleton] at hp
    subst hp
    simp
  · intro p hp
    simp only [sFull, List.mem_singleton] at hp
    subst hp
    intro q hq
    simp only [List.mem_singleton] at hq
    subst hq
    simp
  · intro p hp
    simp only [sFull, List.mem_singleton] at hp
    subst hp
    simp
  · intro d n h
    simp only [sFull] at h ⊢
    rw [alookup] at h
    split at h
    · rename_i hd
      injection h with h0
      subst h0
      rw [← hd]
      rfl
    · rw [alookup] at h
      cases h
  · simp [sFull]
  · intro p hp
    simp only [sFull, List.mem_singleton] at hp
    subst hp
    rfl
  · intro p hp
    simp only [sFull, List.mem_singleton] at hp
    subst hp
    rfl
  · intro p hp
    simp only [sFull, List.mem_singleton] at hp
    subst hp
    rfl
  · intro p hp
    simp only [sFull, List.mem_singleton] at hp
    subst hp
    intro q hq
    simp only [List.mem_singleton] at hq
    subst hq
    rfl

/-- The doubly-leased one-device fixture is well-formed. -/
theorem WF_sTwice : Devices.WF sTwice := by
  refine ⟨⟨?_, ?_, ?_, ?_, ?_, ?_, ?_, ?_, ?_⟩, ?_⟩
  · simp [sTwice]
  · intro p hp
    simp only [sTwice, List.mem_singleton] at hp
    subst hp
    simp
  · intro p hp
    simp only [sTwice, List.mem_singleton] at hp
    subst hp
    intro q hq
    simp only [List.mem_singleton] at hq
    subst hq
    simp
  · intro p hp
    simp only [sTwice, List.mem_singleton] at hp
    subst hp
    simp
  · intro d n h
    simp only [sTwice] at h ⊢
    rw [alookup] at h
    split at h
    · rename_i hd
      injection h with h0
      subst h0
      rw [← hd]
      rfl
    · rw [alookup] at h
      cases h
  · simp [sTwice]
  · intro p hp
    simp only [sTwice, List.mem_singleton] at hp
    subst hp
    rfl
  · intro p hp
    simp only [sTwice, List.mem_singleton] at hp
    subst hp
    rfl
  · intro p hp
    simp only [sTwice, List.mem_singleton] at hp
    subst hp
    rfl
  · intro p hp
    simp only [sTwice, List.mem_singleton] at hp
    subst hp
    intro q hq
    simp only [List.mem_singleton] at hq
    subst hq
    rfl

/-- C7: starting from a well-formed registry, every successful
`_wolock_acquire` and `_wolock_release` leaves the lease count of each
registered device equal to the sum over all acquirers of the length of
that acquirer's timestamp list for the device in the Lease Ledger. -/
theorem C7_count_invariant :
    (∀ (s s' : State) (key acq : String) (ts : Nat),
      Devices.WF s → Devices.wolock_acquire s key acq ts = Except.ok s' →
      ∀ d n, alookup d s'.refcount = some n →
        n = Devices.ledgerCount s'.acquirer d) ∧
    (∀ (s s' : State) (key : String) (acq : Option String),
      Devices.WF s → Devices.wolock_release s key acq = Except.ok s' →
      ∀ d n, alookup d s'.refcount = some n →
        n = Devices.ledgerCount s'.acquirer d) :=
  ⟨fun _ _ _ _ _ hwf h => (Devices.WF_wolock_acquire hwf h).count,
   fun _ _ _ _ hwf h => (Devices.WF_wolock_release hwf h).count⟩

/-- C7 witness: acquiring "X" on the idle fixture yields lease count 1 and
a single ledger timestamp; the invariant evaluated there. -/
theorem C7_witness :
    Devices.wolock_acquire sIdle "X" "a" 5
      = Except.ok { sIdle with refcount := [("X", 1)],
                               acquirer := [("a", [("X", [5])])] } ∧
    (1 : Nat)
      = Devices.ledgerCount [("a", [("X", [5])])] "X" := by
  refine ⟨rfl, ?_⟩
  have := (C7_count_invariant.1 sIdle
    { sIdle with refcount := [("X", 1)], acquirer := [("a", [("X", [5])])] }
    "X" "a" 5 WF_sIdle rfl) "X" 1 rfl
  exact this

namespace Devices

/-- Forward computation of `_wolock_remove` on a currently-leased key:
one automatic release, `abandon`, then deletion of the three entries. -/
theorem wolock_remove_ok_pos {s : State} {key : String} {n : Nat} {a : String}
    {m : List (String × List Nat)} {l : List Nat} {di : DevObj × DeviceInfo}
    {dc : DeviceClass}
    (hrc : alookup key s.refcount = some n) (hpos : 0 < n)
    (hres : Devices.resolveAcquirer key s.acquirer none = some a)
    (hm : alookup a s.acquirer = some m) (hl : alookup key m = some l)
    (hlne : ¬ l.length = 0)
    (hdev : alookup key s.devinfo = some di)
    (hdc : alookup key s.deviceIdClass = some dc)
    (hab : dc.abandonResult di.2 di.1 = Except.ok ()) :
    Devices.wolock_remove s key
      = Except.ok { devinfo := aerase key s.devinfo,
                    refcount := aerase key (aset key (n - 1) s.refcount),
                    acquirer := releaseLedger a key m l s.acquirer,
                    infos := aerase di.2 s.infos,
                    deviceIdClass := s.deviceIdClass,
                    deviceClasses := s.deviceClasses,
                    whitelist := s.whitelist, blacklist := s.blacklist } := by
  have hrel := Devices.wolock_release_ok' hrc (by omega) hres hm hl hlne
  unfold Devices.wolock_remove Devices.validate
  rw [hrc]
  simp only [Option.isSome_some, if_true, Option.getD_some, if_pos hpos, hrel,
    hdev, hdc, hab]

end Devices

/-- C6: removing a currently-leased device with `force` set force-releases
exactly one outstanding lease through the automatic-acquirer release path
and then deletes the registry entry unconditionally — also when the lease
count exceeds one. -/
theorem C6_forced_removal :
    ∀ (s : State) (key : String) (n : Nat) (di : DevObj × DeviceInfo)
      (dc : DeviceClass),
      Devices.WF s →
      alookup key s.refcount = some n → 0 < n →
      alookup key s.devinfo = some di →
      alookup key s.deviceIdClass = some dc →
      dc.abandonResult di.2 di.1 = Except.ok () →
      ∃ s', Devices.remove s key true = Except.ok s' ∧
        alookup key s'.devinfo = none ∧
        alookup key s'.refcount = none ∧
        Devices.ledgerCount s'.acquirer key + 1
          = Devices.ledgerCount s.acquirer key := by
  intro s key n di dc hwf hrc hpos hdev hdc hab
  have hcnt := hwf.count key n hrc
  have hl0 : 0 < Devices.ledgerCount s.acquirer key := by omega
  obtain ⟨a, m, hfind, hm, hlen⟩ :=
    Devices.autoFind_of_ledgerCount_pos key s.acquirer hl0 hwf.acqNodup
  obtain ⟨l, hl, hlne⟩ : ∃ l, alookup key m = some l ∧ ¬ l.length = 0 := by
    cases hkm : alookup key m with
    | none =>
      rw [Devices.entryLen, hkm] at hlen
      simp at hlen
    | some l =>
      refine ⟨l, rfl, ?_⟩
      rw [Devices.entryLen, hkm] at hlen
      simp at hlen
      omega
  have hres : Devices.resolveAcquirer key s.acquirer none = some a := by
    simp [Devices.resolveAcquirer, hfind]
  have hrem := Devices.wolock_remove_ok_pos hrc hpos hres hm hl hlne hdev hdc hab
  refine ⟨{ devinfo := aerase key s.devinfo,
            refcount := aerase key (aset key (n - 1) s.refcount),
            acquirer := Devices.releaseLedger a key m l s.acquirer,
            infos := aerase di.2 s.infos,
            deviceIdClass := s.deviceIdClass,
            deviceClasses := s.deviceClasses,
            whitelist := s.whitelist, blacklist := s.blacklist },
    ?_, ?_, ?_, ?_⟩
  · unfold Devices.remove Devices.validate
    rw [hrc]
    simp only [Option.isSome_some, if_true, Option.getD_some, Bool.not_true,
      Bool.and_false, Bool.false_eq_true, if_false]
    exact hrem
  · simp
  · simp
  · have hC := Devices.releaseLedger_count a key m l s.acquirer key hm hl hlne
      hwf.acqNodup
    rw [if_pos rfl] at hC
    exact hC

/-- C6 witness: forced removal on the doubly-leased fixture `sTwice`
(lease count 2): one lease released, entry deleted anyway. -/
theorem C6_witness :
    Devices.WF sTwice ∧ 0 < 2 ∧
    (∃ s', Devices.remove sTwice "X" true = Except.ok s' ∧
      alookup "X" s'.devinfo = none ∧
      alookup "X" s'.refcount = none ∧
      Devices.ledgerCount s'.acquirer "X" + 1
        = Devices.ledgerCount sTwice.acquirer "X") :=
  ⟨WF_sTwice, by omega,
    C6_forced_removal sTwice "X" 2 (DevObj.obj 7, infoX) dcUnl WF_sTwice
      rfl (by omega) rfl rfl rfl⟩

theorem mem_sortInsert {x y : String} : ∀ {l : List String},
    y ∈ Devices.sortInsert x l ↔ y = x ∨ y ∈ l := by
  intro l
  induction l with
  | nil => simp [Devices.sortInsert]
  | cons a t ih =>
    unfold Devices.sortInsert
    by_cases h : a < x
    · rw [if_pos h]
      simp only [List.mem_cons, ih]
      tauto
    · rw [if_neg h]
      simp only [List.mem_cons]

theorem mem_ssort {x : String} : ∀ {l : List String},
    x ∈ Devices.ssort l ↔ x ∈ l := by
  intro l
  induction l with
  | nil => simp [Devices.ssort]
  | cons a t ih =>
    show x ∈ Devices.sortInsert a (Devices.ssort t) ↔ _
    rw [mem_sortInsert]
    simp [ih]

/-- The `release_all` loop over an acquirer whose every per-device
timestamp list is a singleton: each iteration succeeds and the acquirer
entry is gone at the end. -/
theorem releaseLoop_singletons (acq : String) :
    ∀ (m : List (String × List Nat)) (s : State),
      Devices.WF s →
      alookup acq s.acquirer = some m →
      (∀ q ∈ m, q.2.length = 1) →
      ∃ s', Devices.releaseLoop acq (m.map Prod.fst) s = Except.ok s' ∧
        alookup acq s'.acquirer = none ∧ Devices.WF s' := by
  intro m
  induction m with
  | nil =>
    intro s hwf hm _
    exact absurd rfl (hwf.mapsNonempty _ (alookup_mem hm))
  | cons q rest ih =>
    obtain ⟨k, ts⟩ := q
    intro s hwf hm hsing
    have hmmem := alookup_mem hm
    have hl : alookup k ((k, ts) :: rest) = some ts := by simp [alookup]
    have hts1 : ts.length = 1 := hsing (k, ts) (by simp)
    have hlne : ¬ ts.length = 0 := by omega
    have hrcIs : (alookup k s.refcount).isSome = true :=
      hwf.ledgerReg _ hmmem (k, ts) (by simp)
    obtain ⟨n, hrc⟩ := Option.isSome_iff_exists.mp hrcIs
    have hnpos : 0 < n := by
      have h1 := Devices.entryLen_le_ledgerCount acq ((k, ts) :: rest)
        s.acquirer k hm
      have h2 : Devices.entryLen k ((k, ts) :: rest) = 1 := by
        simp [Devices.entryLen, alookup, hts1]
      have h3 := hwf.count k n hrc
      omega
    have hres : Devices.resolveAcquirer k s.acquirer (some acq) = some acq := rfl
    have hrel := Devices.wolock_release_ok' hrc (by omega) hres hm hl hlne
    have hwf1 := Devices.WF_wolock_release hwf hrel
    obtain ⟨t0, hts⟩ := List.length_eq_one.mp hts1
    have htsd : ts.dropLast = [] := by rw [hts]; rfl
    have hkrest : k ∉ rest.map Prod.fst := by
      have := hwf.innerNodup _ hmmem
      simp only [List.map_cons, List.nodup_cons] at this
      exact this.1
    have heraseK : aerase k ((k, ts) :: rest) = rest := by
      show (if k = k then aerase k rest else (k, ts) :: aerase k rest) = rest
      rw [if_pos rfl, aerase_eq_self_of_not_mem hkrest]
    have hledger : Devices.releaseLedger acq k ((k, ts) :: rest) ts s.acquirer
        = if rest = [] then aerase acq s.acquirer
          else aset acq rest s.acquirer := by
      unfold Devices.releaseLedger
      rw [if_pos htsd, heraseK]
    have hloop : Devices.releaseLoop acq (k :: rest.map Prod.fst) s
        = Devices.releaseLoop acq (rest.map Prod.fst)
            { s with refcount := aset k (n - 1) s.refcount,
                     acquirer := Devices.releaseLedger acq k ((k, ts) :: rest)
                       ts s.acquirer } := by
      show (match Devices.wolock_release s k (some acq) with
        | Except.error e => Except.error e
        | Except.ok s' => Devices.releaseLoop acq (rest.map Prod.fst) s') = _
      rw [hrel]
    by_cases hrest : rest = []
    · subst hrest
      refine ⟨_, ?_, ?_, hwf1⟩
      · show Devices.releaseLoop acq (k :: List.map Prod.fst []) s = _
        rw [hloop]
        rfl
      · show alookup acq (Devices.releaseLedger acq k [(k, ts)] ts s.acquirer)
          = none
        rw [hledger, if_pos rfl]
        exact alookup_aerase_self _ _
    · have hm1 : alookup acq
          (Devices.releaseLedger acq k ((k, ts) :: rest) ts s.acquirer)
          = some rest := by
        rw [hledger, if_neg hrest]
        exact alookup_aset_self _ _ _
      obtain ⟨s', hloop', hnone, hwf'⟩ := ih
        { s with refcount := aset k (n - 1) s.refcount,
                 acquirer := Devices.releaseLedger acq k ((k, ts) :: rest)
                   ts s.acquirer }
        hwf1 hm1 (fun q hq => hsing q (List.mem_cons_of_mem _ hq))
      refine ⟨s', ?_, hnone, hwf'⟩
      show Devices.releaseLoop acq (k :: rest.map Prod.fst) s = Except.ok s'
      rw [hloop]
      exact hloop'

/-- C3 counterexample: acquirer "a" holds two leases on the same device
"X" (fixture `sTwice`); `releaseAll("a")` succeeds but releases only one
of them — afterwards "a" still holds a lease and still appears in
`acquirers()`, refuting "afterwards the acquirer holds no leases and is
absent from acquirers()". -/
theorem C3_counterexample :
    Devices.release_all sTwice "a"
      = Except.ok { sTwice with refcount := [("X", 1)],
                                acquirer := [("a", [("X", [1])])] } ∧
    alookup "a" [("a", [("X", [1])])] = some [("X", [1])] ∧
    "a" ∈ Devices.acquirers
      { sTwice with refcount := [("X", 1)],
                    acquirer := [("a", [("X", [1])])] } := by
  refine ⟨rfl, rfl, by decide⟩

/-- C3 amended: `releaseAll(acquirerId)` fails with the unknown-acquirer
error when the acquirer holds nothing; when it holds leases it releases
exactly one lease per device it holds — so when every per-device
timestamp list is a singleton (at most one lease per device) the acquirer
afterwards holds nothing and is absent from `acquirers()`, but a
multiply-leased device keeps the surplus leases (see counterexample). -/
theorem C3_release_all :
    (∀ (s : State) (acq : String),
      alookup acq s.acquirer = none →
      Devices.release_all s acq
        = Except.error ("unknown acquirer " ++ acq)) ∧
    (∀ (s : State) (acq : String) (m : List (String × List Nat)),
      Devices.WF s → alookup acq s.acquirer = some m →
      (∀ q ∈ m, q.2.length = 1) →
      ∃ s', Devices.release_all s acq = Except.ok s' ∧
        alookup acq s'.acquirer = none ∧ acq ∉ Devices.acquirers s') := by
  constructor
  · intro s acq h
    unfold Devices.release_all
    rw [h]
  · intro s acq m hwf hm hsing
    obtain ⟨s', hloop, hnone, _⟩ := releaseLoop_singletons acq m s hwf hm hsing
    refine ⟨s', ?_, hnone, ?_⟩
    · unfold Devices.release_all
      rw [hm]
      exact hloop
    · intro hmem
      unfold Devices.acquirers at hmem
      rw [mem_ssort] at hmem
      have := alookup_isSome_of_mem_fst hmem
      rw [hnone] at this
      cases this

/-- C3 witness: the amended statement evaluated on `sFull` — unknown
acquirer "b" is rejected; "a" (holding one lease on "X") is fully
released and disappears from `acquirers()`. -/
theorem C3_witness :
    Devices.release_all sFull "b"
        = Except.error ("unknown acquirer " ++ "b") ∧
    (∃ s', Devices.release_all sFull "a" = Except.ok s' ∧
      alookup "a" s'.acquirer = none ∧ "a" ∉ Devices.acquirers s') :=
  ⟨C3_release_all.1 sFull "b" rfl,
   C3_release_all.2 sFull "a" [("X", [3])] WF_sFull rfl
    (by
      intro q hq
      simp only [List.mem_singleton] at hq
      subst hq
      rfl)⟩

/-- The per-plugin enumeration fold keeps every present plugin-map key. -/
theorem scanFold_lookup (dc : DeviceClass) :
    ∀ (ids : List String) (acc : List String × List (String × DeviceClass))
      (k : String), (alookup k acc.2).isSome = true →
      (alookup k (ids.foldl
        (fun a did => (Devices.sinsert did a.1, aset did dc a.2)) acc).2).isSome
        = true := by
  intro ids
  induction ids with
  | nil =>
    intro acc k h
    exact h
  | cons d t ih =>
    intro acc k h
    rw [List.foldl_cons]
    exact ih _ k (Devices.alookup_aset_isSome _ _ _ _ h)

/-- Plugin-map entries after the fold: an old entry or the folded class. -/
theorem scanFold_mem (dc : DeviceClass) :
    ∀ (ids : List String) (acc : List String × List (String × DeviceClass))
      (p : String × DeviceClass),
      p ∈ (ids.foldl
        (fun a did => (Devices.sinsert did a.1, aset did dc a.2)) acc).2 →
      p ∈ acc.2 ∨ p.2 = dc := by
  intro ids
  induction ids with
  | nil =>
    intro acc p h
    exact Or.inl h
  | cons d t ih =>
    intro acc p h
    rw [List.foldl_cons] at h
    rcases ih _ p h with h' | h'
    · rcases mem_aset h' with h'' | h''
      · right
        rw [h'']
      · exact Or.inl h''
    · exact Or.inr h'

/-- `scanClasses` keeps every present plugin-map key. -/
theorem scanClasses_lookup :
    ∀ (dcs : List DeviceClass) (acc : List String × List (String × DeviceClass))
      (k : String), (alookup k acc.2).isSome = true →
      (alookup k (Devices.scanClasses dcs acc).2).isSome = true := by
  intro dcs
  induction dcs with
  | nil =>
    intro acc k h
    exact h
  | cons dc rest ih =>
    intro acc k h
    show (alookup k (Devices.scanClasses rest _).2).isSome = true
    exact ih _ k (scanFold_lookup dc _ acc k h)

/-- Plugin-map entries after `scanClasses`: an old entry or one of the
scanned classes. -/
theorem scanClasses_mem :
    ∀ (dcs : List DeviceClass) (acc : List String × List (String × DeviceClass))
      (p : String × DeviceClass),
      p ∈ (Devices.scanClasses dcs acc).2 → p ∈ acc.2 ∨ p.2 ∈ dcs := by
  intro dcs
  induction dcs with
  | nil =>
    intro acc p h
    exact Or.inl h
  | cons dc rest ih =>
    intro acc p h
    have h' : p ∈ (Devices.scanClasses rest
        ((match dc.rescanResult with
          | Except.ok l => l
          | Except.error _ => []).foldl
          (fun a did => (Devices.sinsert did a.1, aset did dc a.2)) acc)).2 := h
    rcases ih _ p h' with h'' | h''
    · rcases scanFold_mem dc _ acc p h'' with h3 | h3
      · exact Or.inl h3
      · right
        rw [h3]
        exact List.mem_cons_self _ _
    · right
      exact List.mem_cons_of_mem _ h''

namespace Devices

/-- `_wolock_add` of a fresh serial preserves full well-formedness. -/
theorem WF_wolock_add {s s' : State} {key : String}
    (hwf : WF s) (hfresh : alookup key s.devinfo = none)
    (h : Devices.wolock_add s key = Except.ok s') : WF s' := by
  obtain ⟨dc, d, i, hdc, hadopt, hs'⟩ := wolock_add_ok_elim h
  have hrcNone : alookup key s.refcount = none := by
    cases hx : alookup key s.refcount with
    | none => rfl
    | some n =>
      have := hwf.rcDev _ (alookup_mem hx)
      rw [hfresh] at this
      cases this
  have hled0 : ledgerCount s.acquirer key = 0 := by
    apply List.sum_eq_zero
    intro x hx
    obtain ⟨p, hp, hpx⟩ := List.mem_map.mp hx
    rw [← hpx]
    cases hq : alookup key p.2 with
    | none => simp [entryLen, hq]
    | some l =>
      have := hwf.ledgerReg p hp (key, l) (alookup_mem hq)
      rw [hrcNone] at this
      cases this
  have hrcPres : ∀ d', (alookup d' s.refcount).isSome = true →
      (alookup d' (aset key 0 s.refcount)).isSome = true :=
    fun d' hd' => alookup_aset_isSome _ _ _ _ hd'
  subst hs'
  refine ⟨⟨hwf.acqNodup, hwf.innerNodup, hwf.listsNonempty, hwf.mapsNonempty,
    ?_, ?_, ?_, ?_, ?_⟩, ?_⟩
  · -- count
    intro d' n hd'
    simp only at hd'
    by_cases hdk : d' = key
    · subst hdk
      rw [alookup_aset_self] at hd'
      have h0 : (0 : Nat) = n := by injection hd'
      rw [← h0]
      exact hled0.symm
    · rw [alookup_aset_ne _ _ (fun hh => hdk hh.symm)] at hd'
      exact hwf.count d' n hd'
  · -- devNodup
    simp only
    rw [aset_map_fst_of_lookup_none _ hfresh]
    rw [List.nodup_append]
    refine ⟨hwf.devNodup, List.nodup_singleton _, ?_⟩
    intro a ha hb
    simp at hb
    subst hb
    rw [alookup_eq_none_iff] at hfresh
    exact hfresh ha
  · -- devRc
    intro p hp
    simp only at hp ⊢
    rcases mem_aset hp with hp' | hp'
    · rw [hp']
      show (alookup key (aset key 0 s.refcount)).isSome = true
      rw [alookup_aset_self]
      rfl
    · exact hrcPres _ (hwf.devRc _ hp')
  · -- rcDev
    intro p hp
    simp only at hp ⊢
    rcases mem_aset hp with hp' | hp'
    · rw [hp']
      show (alookup key (aset key (d, i) s.devinfo)).isSome = true
      rw [alookup_aset_self]
      rfl
    · by_cases hpk : p.1 = key
      · rw [hpk, alookup_aset_self]
        rfl
      · rw [alookup_aset_ne _ _ (fun hh => hpk hh.symm)]
        exact hwf.rcDev _ hp'
  · -- devClass
    intro p hp
    simp only at hp ⊢
    rcases mem_aset hp with hp' | hp'
    · rw [hp']
      show (alookup key s.deviceIdClass).isSome = true
      rw [hdc]
      rfl
    · exact hwf.devClass _ hp'
  · -- ledgerReg
    intro p hp q hq
    simp only at hp ⊢
    exact hrcPres _ (hwf.ledgerReg _ hp _ hq)

/-- The new-device phase of `rescan` preserves well-formedness and never
touches the plugin map, the classes, or the Lease Ledger. -/
theorem addLoop_WF :
    ∀ (keys : List String) (s : State), WF s →
      WF (Devices.addLoop keys s) ∧
      (Devices.addLoop keys s).deviceIdClass = s.deviceIdClass ∧
      (Devices.addLoop keys s).deviceClasses = s.deviceClasses := by
  intro keys
  induction keys with
  | nil =>
    intro s hwf
    exact ⟨hwf, rfl, rfl⟩
  | cons k t ih =>
    intro s hwf
    unfold Devices.addLoop
    by_cases hk : (alookup k s.devinfo).isSome = true
    · rw [if_pos hk]
      exact ih s hwf
    · rw [if_neg hk]
      have hfresh : alookup k s.devinfo = none := by
        cases hx : alookup k s.devinfo with
        | none => rfl
        | some v =>
          rw [hx] at hk
          exact absurd rfl hk
      cases hadd : Devices.wolock_add s k with
      | error e => exact ih s hwf
      | ok s'' =>
        have hwf'' := WF_wolock_add hwf hfresh hadd
        obtain ⟨dc, d, i, _, _, hs''⟩ := wolock_add_ok_elim hadd
        obtain ⟨h1, h2, h3⟩ := ih s'' hwf''
        refine ⟨h1, ?_, ?_⟩
        · rw [h2, hs'']
        · rw [h3, hs'']

/-- Forward computation of `_wolock_remove` on an unleased key. -/
theorem wolock_remove_ok_zero {s : State} {key : String}
    {di : DevObj × DeviceInfo} {dc : DeviceClass}
    (hrc : alookup key s.refcount = some 0)
    (hdev : alookup key s.devinfo = some di)
    (hdc : alookup key s.deviceIdClass = some dc)
    (hab : dc.abandonResult di.2 di.1 = Except.ok ()) :
    Devices.wolock_remove s key
      = Except.ok { s with devinfo := aerase key s.devinfo,
                           refcount := aerase key s.refcount,
                           infos := aerase di.2 s.infos } := by
  unfold Devices.wolock_remove Devices.validate
  rw [hrc]
  simp only [Option.isSome_some, if_true, Option.getD_some, lt_self_iff_false,
    if_false, hdev, hdc, hab]

/-- Under `RInv` and fault-free `abandon`s, `_wolock_remove` of any
registered device succeeds, deletes exactly that device's entries, and
preserves `RInv`. -/
theorem wolock_remove_ok_of {s : State} {key : String} {di : DevObj × DeviceInfo}
    (hr : RInv s) (hdev : alookup key s.devinfo = some di)
    (habOk : ∀ p ∈ s.deviceIdClass, ∀ i d,
      p.2.abandonResult i d = Except.ok ()) :
    ∃ s', Devices.wolock_remove s key = Except.ok s' ∧ RInv s' ∧
      s'.deviceIdClass = s.deviceIdClass ∧
      s'.devinfo = aerase key s.devinfo := by
  have hrcIs := hr.devRc _ (alookup_mem hdev)
  obtain ⟨n, hrc⟩ := Option.isSome_iff_exists.mp hrcIs
  have hdcIs := hr.devClass _ (alookup_mem hdev)
  obtain ⟨dc, hdc⟩ := Option.isSome_iff_exists.mp hdcIs
  have hab : dc.abandonResult di.2 di.1 = Except.ok () :=
    habOk _ (alookup_mem hdc) di.2 di.1
  by_cases hn : n = 0
  · subst hn
    have hrem := wolock_remove_ok_zero hrc hdev hdc hab
    exact ⟨_, hrem, RInv_wolock_remove hr hrem, rfl, rfl⟩
  · have hcnt := hr.count key n hrc
    have hl0 : 0 < ledgerCount s.acquirer key := by omega
    obtain ⟨a, m, hfind, hm, hlen⟩ :=
      autoFind_of_ledgerCount_pos key s.acquirer hl0 hr.acqNodup
    obtain ⟨l, hl, hlne⟩ : ∃ l, alookup key m = some l ∧ ¬ l.length = 0 := by
      cases hkm : alookup key m with
      | none =>
        rw [entryLen, hkm] at hlen
        simp at hlen
      | some l =>
        refine ⟨l, rfl, ?_⟩
        rw [entryLen, hkm] at hlen
        simp at hlen
        omega
    have hres : Devices.resolveAcquirer key s.acquirer none = some a := by
      simp [Devices.resolveAcquirer, hfind]
    have hrem := wolock_remove_ok_pos hrc (by omega) hres hm hl hlne hdev hdc hab
    exact ⟨_, hrem, RInv_wolock_remove hr hrem, rfl, rfl⟩

/-- The detached-device phase of `rescan` succeeds when every plugin's
`abandon` is fault-free. -/
theorem removeLoop_ok (sns : List String) :
    ∀ (keys : List String) (s : State), RInv s →
      keys.Nodup →
      (∀ k ∈ keys, (alookup k s.devinfo).isSome = true) →
      (∀ p ∈ s.deviceIdClass, ∀ i d,
        p.2.abandonResult i d = Except.ok ()) →
      ∃ s', Devices.removeLoop sns keys s = Except.ok s' := by
  intro keys
  induction keys with
  | nil =>
    intro s _ _ _ _
    exact ⟨s, rfl⟩
  | cons k t ih =>
    intro s hr hnd hmem habOk
    rw [List.nodup_cons] at hnd
    unfold Devices.removeLoop
    by_cases hk : k ∈ sns
    · rw [if_pos hk]
      exact ih s hr hnd.2 (fun k' hk' => hmem k' (List.mem_cons_of_mem _ hk'))
        habOk
    · rw [if_neg hk]
      obtain ⟨di, hdev⟩ := Option.isSome_iff_exists.mp
        (hmem k (List.mem_cons_self _ _))
      obtain ⟨s1, hrem, hr1, hidc1, hdev1⟩ := wolock_remove_ok_of hr hdev habOk
      rw [hrem]
      apply ih s1 hr1 hnd.2
      · intro k' hk'
        have hne : k' ≠ k := fun hh => hnd.1 (hh ▸ hk')
        rw [hdev1, alookup_aerase_ne _ (fun hh => hne hh.symm)]
        exact hmem k' (List.mem_cons_of_mem _ hk')
      · intro p hp i d
        rw [hidc1] at hp
        exact habOk p hp i d

end Devices

/-- C4 counterexample: a plugin whose `abandon` raises aborts the whole
reconciliation pass — `rescan` on the fixture `sAbandonFail` (device "A"
no longer enumerated, its plugin's `abandon` failing) propagates the
exception instead of catching it, refuting "a fault raised by the
plugin's rescan, adopt, or abandon operation is caught and logged". -/
theorem C4_counterexample :
    Devices.rescan sAbandonFail = Except.error "abandon failed" := by
  rfl

/-- The adopt-then-forget phases of `rescan`, for any key and survivor
lists: they complete whenever every plugin in the (updated) plugin map
abandons cleanly. -/
theorem rescanLoops_ok (s1 : State) (hwf1 : Devices.WF s1)
    (habOk : ∀ p ∈ s1.deviceIdClass, ∀ i d,
      p.2.abandonResult i d = Except.ok ())
    (keys sns : List String) :
    ∃ s', Devices.removeLoop sns
        ((Devices.addLoop keys s1).devinfo.map Prod.fst)
        (Devices.addLoop keys s1) = Except.ok s' := by
  obtain ⟨hwf2, hidc2, _⟩ := Devices.addLoop_WF keys s1 hwf1
  apply Devices.removeLoop_ok sns _ _ hwf2.toRInv hwf2.devNodup
    (fun k hk => alookup_isSome_of_mem_fst hk)
  intro p hp i d
  rw [hidc2] at hp
  exact habOk p hp i d

/-- C4 amended: plugin faults during `rescan` enumeration and during
`adopt` are caught and degrade to "no devices from this plugin" / "skip
this identifier" — whatever those operations return, a reconciliation
pass on a well-formed registry completes — but only provided every
involved plugin's `abandon` is fault-free: an `abandon` fault is not
caught and aborts the pass (see counterexample). -/
theorem C4_plugin_fault_isolation :
    ∀ s : State, Devices.WF s →
      (∀ p ∈ s.deviceIdClass, ∀ i d,
        p.2.abandonResult i d = Except.ok ()) →
      (∀ dc ∈ s.deviceClasses, ∀ i d,
        dc.abandonResult i d = Except.ok ()) →
      ∃ s', Devices.rescan s = Except.ok s' := by
  intro s hwf hab1 hab2
  have hwf1 : Devices.WF
      { s with deviceIdClass :=
          (Devices.scanClasses s.deviceClasses ([], s.deviceIdClass)).2 } := by
    refine ⟨⟨hwf.acqNodup, hwf.innerNodup, hwf.listsNonempty,
      hwf.mapsNonempty, hwf.count, hwf.devNodup, hwf.devRc, hwf.rcDev, ?_⟩,
      hwf.ledgerReg⟩
    intro p hp
    simp only at hp ⊢
    exact scanClasses_lookup s.deviceClasses ([], s.deviceIdClass) p.1
      (hwf.devClass _ hp)
  have habOk1 : ∀ p ∈ ({ s with deviceIdClass :=
      (Devices.scanClasses s.deviceClasses ([], s.deviceIdClass)).2 } :
        State).deviceIdClass,
      ∀ i d, p.2.abandonResult i d = Except.ok () := by
    intro p hp i d
    simp only at hp
    rcases scanClasses_mem s.deviceClasses ([], s.deviceIdClass) p hp with h | h
    · exact hab1 p h i d
    · exact hab2 _ h i d
  exact rescanLoops_ok _ hwf1 habOk1 _ _

/-- C4 witness: the amended statement evaluated on the idle fixture
`sIdle`, whose single plugin enumerates "X" and abandons cleanly; the
pass keeps "X" and succeeds. -/
theorem C4_witness :
    (∃ s', Devices.rescan sIdle = Except.ok s') ∧
    Devices.rescan sIdle = Except.ok sIdle :=
  ⟨C4_plugin_fault_isolation sIdle WF_sIdle
    (by
      intro p hp i d
      simp only [sIdle, List.mem_singleton] at hp
      subst hp
      rfl)
    (by
      intro dc hdc i d
      simp only [sIdle, List.mem_singleton] at hdc
      subst hdc
      rfl),
   rfl⟩

end RemoteDevices
